import Mathlib

/-!
Bubble-mitosis particle simulation (`src/frontend.js`)

A shallow embedding of the simulation core of `BubbleMitosisScreensaver`:
the `Bubble` class (constructor, `update`), `mergeBubbles`, `splitBubble`
and the frame function `animate`.

Modelling decisions.

* Numbers.  The spec's data model is real-valued, so a number is a real, or
  `NaN` (`Num.nan`), which the code can produce as `0 / 0` in `update`.
  `±Infinity` is not represented: in exact arithmetic it would need a non-zero
  number divided by zero, which in this program means `r1 + r2 = 0` in
  `mergeBubbles`; the model's division returns `NaN` there.
  Arithmetic and comparisons are exact: the rounding of the code's doubles is
  not modelled.  A strict comparison of the model therefore agrees with the
  code's only away from equality; where the two sides are equal in exact
  arithmetic (the merge test on the two children of a split, which are tangent
  by construction) the code's result is decided by rounding and nothing is
  stated about it here.
* `Math.random()` is a stream of reals (`Draws`), consumed in the order in
  which the code evaluates its calls.
* `undefined` constructor arguments are passed as `Num.nan`: they are only
  ever tested for truthiness by `||`, where both are falsy.
* Drawing (`ctx`, `draw()`) and frame scheduling have no effect on the
  particles and are left out.
* `bubbles[i]` for an index outside the array is `undefined`, and reading a
  property of it throws `TypeError`: the frame then has outcome `typeError`.
-/

namespace BubbleSim

noncomputable section

/-! ## Numbers -/

/-- A number of the simulation: `NaN` or a real. -/
inductive Num where
  | nan : Num
  | fin (r : ℝ) : Num

namespace Num

/-- Lift of a binary real operation; `NaN` is absorbing. -/
def map₂ (f : ℝ → ℝ → ℝ) : Num → Num → Num
  | fin a, fin b => fin (f a b)
  | _, _ => nan

instance : Add Num := ⟨map₂ (· + ·)⟩
instance : Sub Num := ⟨map₂ (· - ·)⟩
instance : Mul Num := ⟨map₂ (· * ·)⟩

/-- Division `a / b`; `0 / 0` is `NaN`. -/
def div : Num → Num → Num
  | fin a, fin b => if b = 0 then nan else fin (a / b)
  | _, _ => nan

instance : Div Num := ⟨div⟩

/-- The square `a ** 2`. -/
def sq (a : Num) : Num := a * a

/-- The function `Math.sqrt`. -/
def sqrt : Num → Num
  | fin a => if a < 0 then nan else fin (Real.sqrt a)
  | nan => nan

/-- The function `Math.max` of two arguments. -/
def max : Num → Num → Num := map₂ Max.max

/-- The function `Math.min` of two arguments. -/
def min : Num → Num → Num := map₂ Min.min

/-- The comparison `a < b`: false as soon as one side is `NaN`. -/
def lt : Num → Num → Prop
  | fin a, fin b => a < b
  | _, _ => False

/-- The comparison `a > b`. -/
def gt (a b : Num) : Prop := lt b a

instance : DecidableRel lt
  | fin a, fin b => inferInstanceAs (Decidable (a < b))
  | nan, _ => isFalse (fun h => by cases h)
  | fin _, nan => isFalse (fun h => by cases h)

instance : DecidableRel gt := fun a b => inferInstanceAs (Decidable (lt b a))

end Num

/-! ## Random draws -/

/-- The values returned by successive calls of `Math.random()`. -/
abbrev Draws := ℕ → ℝ

/-- The stream after one call of `Math.random()`. -/
def Draws.tail (g : Draws) : Draws := fun n => g (n + 1)

/-- Every draw lies in `[0, 1)`. -/
def Draws.Valid (g : Draws) : Prop := ∀ n, 0 ≤ g n ∧ g n < 1

/-- The expression `a || f (Math.random())`: `a` when it is truthy (neither
`0` nor `NaN`), otherwise a value computed from a fresh draw. -/
def orRandom (a : Num) (f : ℝ → ℝ) (g : Draws) : ℝ × Draws :=
  match a with
  | Num.fin r => if r = 0 then (f (g 0), g.tail) else (r, g)
  | Num.nan => (f (g 0), g.tail)

/-! ## Particles -/

/-- A particle: centre, radius and velocity. -/
structure Bubble where
  x : Num
  y : Num
  radius : ℝ
  vx : Num
  vy : Num

/-- The field `maxRadius`, set to 50 by the constructor and never changed. -/
def Bubble.maxRadius (_ : Bubble) : ℝ := 50

/-- The field `minRadius`, set to 5 by the constructor and never changed. -/
def Bubble.minRadius (_ : Bubble) : ℝ := 5

/-- The constructor `new Bubble(x, y, radius, vx, vy)`. -/
def Bubble.new (x y radius vx vy : Num) (g : Draws) : Bubble × Draws :=
  let r := orRandom radius (fun d => d * 20 + 10) g
  let v1 := orRandom vx (fun d => (d - 0.5) * 2) r.2
  let v2 := orRandom vy (fun d => (d - 0.5) * 2) v1.2
  ({ x := x, y := y, radius := r.1, vx := Num.fin v1.1, vy := Num.fin v2.1 }, v2.2)

/-- One axis of the boundary check of `update`: position `p` (already
advanced), velocity `v`, radius `r`, surface extent `d`.  Returns the new
velocity and position. -/
def reflect (p v : Num) (r d : ℝ) : Num × Num :=
  if (p - Num.fin r).lt (Num.fin 0) ∨ (p + Num.fin r).gt (Num.fin d) then
    (v * Num.fin (-1), Num.max (Num.fin r) (Num.min (Num.fin d - Num.fin r) p))
  else (v, p)

/-- The method `update()` on a surface of width `w` and height `h`. -/
def Bubble.update (w h : ℝ) (b : Bubble) : Bubble :=
  let rx := reflect (b.x + b.vx) b.vx b.radius w
  let ry := reflect (b.y + b.vy) b.vy b.radius h
  let minVelocity : ℝ := 0.5
  let speed := Num.sqrt (rx.1.sq + ry.1.sq)
  let v : Num × Num :=
    if speed.lt (Num.fin minVelocity) then
      ((rx.1 / speed) * Num.fin minVelocity, (ry.1 / speed) * Num.fin minVelocity)
    else (rx.1, ry.1)
  { x := rx.2, y := ry.2, radius := b.radius,
    vx := v.1 * Num.fin 0.99, vy := v.2 * Num.fin 0.99 }

/-- The function `mergeBubbles(b1, b2)`. -/
def mergeBubbles (b1 b2 : Bubble) (g : Draws) : Bubble × Draws :=
  let newRadius := min (Real.sqrt (b1.radius ^ 2 + b2.radius ^ 2)) b1.maxRadius
  let newX := (b1.x + b2.x) / Num.fin 2
  let newY := (b1.y + b2.y) / Num.fin 2
  let newVx := (b1.vx * Num.fin b1.radius + b2.vx * Num.fin b2.radius)
    / Num.fin (b1.radius + b2.radius)
  let newVy := (b1.vy * Num.fin b1.radius + b2.vy * Num.fin b2.radius)
    / Num.fin (b1.radius + b2.radius)
  Bubble.new newX newY (Num.fin newRadius) newVx newVy g

/-- The function `splitBubble(bubble)`: the array of the two children. -/
def splitBubble (b : Bubble) (g : Draws) : List Bubble × Draws :=
  let newRadius := max (b.radius / Real.sqrt 2) b.minRadius
  let angle := g 0 * Real.pi * 2
  let distance := newRadius
  let speed := Num.sqrt (b.vx.sq + b.vy.sq)
  let c1 := Bubble.new
    (b.x + Num.fin (Real.cos angle) * Num.fin distance)
    (b.y + Num.fin (Real.sin angle) * Num.fin distance)
    (Num.fin newRadius)
    (b.vx + Num.fin (Real.cos angle) * speed)
    (b.vy + Num.fin (Real.sin angle) * speed) g.tail
  let c2 := Bubble.new
    (b.x - Num.fin (Real.cos angle) * Num.fin distance)
    (b.y - Num.fin (Real.sin angle) * Num.fin distance)
    (Num.fin newRadius)
    (b.vx - Num.fin (Real.cos angle) * speed)
    (b.vy - Num.fin (Real.sin angle) * speed) c1.2
  ([c1.1, c2.1], c2.2)

/-! ## The frame -/

/-- What running a piece of the frame gives: a value, the `TypeError` thrown
by reading a property of `undefined`, or the exhaustion of the fuel of the
model (which `scan_fuel` shows never happens in `animate`). -/
inductive Outcome (α : Type) where
  | done (a : α) : Outcome α
  | typeError : Outcome α
  | outOfFuel : Outcome α

/-- The variables of `animate` while it runs: the live array `bubbles`, the
queue `newBubbles`, the loop index `i` and the remaining random draws. -/
structure Frame where
  bubbles : List Bubble
  newBubbles : List Bubble
  i : ℤ
  g : Draws

/-- The array access `bubbles[i]`: `undefined` (`none`) outside the array. -/
def getAt (bs : List Bubble) (i : ℤ) : Option Bubble :=
  if i < 0 then none else bs[i.toNat]?

/-- The merge test of lines 119-122 for the pair `(bi, bj)`, on exact reals:
it agrees with the code's comparison of rounded doubles when the distance and
the sum of the radii differ by more than the rounding error. -/
def overlap (bi bj : Bubble) : Prop :=
  (Num.sqrt ((bi.x - bj.x) * (bi.x - bj.x) + (bi.y - bj.y) * (bi.y - bj.y))).lt
    (Num.fin (bi.radius + bj.radius))

instance (bi bj : Bubble) : Decidable (overlap bi bj) := by
  unfold overlap; infer_instance

/-- The inner loop of lines 118-130 as a search: `rest` holds the particles
at the indices `j, j + 1, ...`; the result is the first index whose particle
passes the merge test with `bi`, and that particle. -/
def findCollision (bi : Bubble) : List Bubble → ℕ → Option (ℕ × Bubble)
  | [], _ => none
  | bj :: rest, j => if overlap bi bj then some (j, bj) else findCollision bi rest (j + 1)

/-- Line 114: `bubbles[i].update()`. -/
def updateStep (w h : ℝ) (s : Frame) : Option Frame :=
  match getAt s.bubbles s.i with
  | none => none
  | some b => some { s with bubbles := s.bubbles.set s.i.toNat (b.update w h) }

/-- Lines 118-130: the collision scan of particle `i`, and the merge with the
first later particle that overlaps it (`splice(j, 1)`, `splice(i, 1)`, `i--`). -/
def mergeStep (s : Frame) : Option Frame :=
  match getAt s.bubbles s.i with
  | none => none
  | some bi =>
    match findCollision bi (s.bubbles.drop (s.i.toNat + 1)) (s.i.toNat + 1) with
    | none => some s
    | some (j, bj) =>
      let m := mergeBubbles bi bj s.g
      some { bubbles := (s.bubbles.eraseIdx j).eraseIdx s.i.toNat,
             newBubbles := s.newBubbles ++ [m.1],
             i := s.i - 1,
             g := m.2 }

/-- Lines 133-138: the split test.  The draw is made first; only when it is
below 0.002 is `bubbles[i]` read. -/
def splitStep (s : Frame) : Option Frame :=
  if s.g 0 < 0.002 then
    match getAt s.bubbles s.i with
    | none => none
    | some b =>
      if b.radius > b.minRadius * 2 then
        let c := splitBubble b s.g.tail
        some { bubbles := s.bubbles.eraseIdx s.i.toNat,
               newBubbles := s.newBubbles ++ c.1,
               i := s.i - 1,
               g := c.2 }
      else some { s with g := s.g.tail }
  else some { s with g := s.g.tail }

/-- One pass through the body of the outer loop (lines 114-138) followed by
its `i++`; `none` is a `TypeError`. -/
def iteration (w h : ℝ) (s : Frame) : Option Frame :=
  (((updateStep w h s).bind mergeStep).bind splitStep).map
    (fun s1 => { s1 with i := s1.i + 1 })

/-- The outer loop of lines 113-139, with fuel. -/
def scan (w h : ℝ) : ℕ → Frame → Outcome Frame
  | 0, _ => Outcome.outOfFuel
  | fuel + 1, s =>
    if s.i < s.bubbles.length then
      match iteration w h s with
      | none => Outcome.typeError
      | some s1 => scan w h fuel s1
    else Outcome.done s

/-- Lines 144-146: the loop that restores the population floor. -/
def refill (w h : ℝ) (bs : List Bubble) (g : Draws) : List Bubble × Draws :=
  if bs.length < 10 then
    let b := Bubble.new (Num.fin (g 0 * w)) (Num.fin (g 1 * h)) Num.nan Num.nan Num.nan
      g.tail.tail
    refill w h (bs ++ [b.1]) b.2
  else (bs, g)
termination_by 10 - bs.length
decreasing_by
  simp only [List.length_append, List.length_singleton]
  omega

/-- The function `animate`: one frame on the live collection `bubbles`.
Returns the collection and the remaining draws at the end of the frame. -/
def animate (w h : ℝ) (bubbles : List Bubble) (g : Draws) : Outcome (List Bubble × Draws) :=
  match scan w h (bubbles.length + 1) { bubbles := bubbles, newBubbles := [], i := 0, g := g } with
  | Outcome.done s => Outcome.done (refill w h (s.bubbles ++ s.newBubbles) s.g)
  | Outcome.typeError => Outcome.typeError
  | Outcome.outOfFuel => Outcome.outOfFuel

/-- The function `animate` run `n` times in a row: each frame schedules the
next one on its last line, a frame that throws schedules none. -/
def frames (w h : ℝ) : ℕ → List Bubble → Draws → Outcome (List Bubble × Draws)
  | 0, bs, g => Outcome.done (bs, g)
  | n + 1, bs, g =>
    match animate w h bs g with
    | Outcome.done r => frames w h n r.1 r.2
    | Outcome.typeError => Outcome.typeError
    | Outcome.outOfFuel => Outcome.outOfFuel

/-! ## Quantities used to state the properties -/

/-- The speed of a particle, as computed on lines 49 and 88. -/
def Bubble.speed (b : Bubble) : Num := Num.sqrt (b.vx.sq + b.vy.sq)

/-- The x-velocity after the boundary check of `update` (lines 38-41) for a
particle whose x-velocity is the real `a`: negated when the test fires. -/
def reflectedVx (w : ℝ) (b : Bubble) (a : ℝ) : ℝ :=
  if (b.x + Num.fin a - Num.fin b.radius).lt (Num.fin 0)
      ∨ (b.x + Num.fin a + Num.fin b.radius).gt (Num.fin w) then -a else a

/-- The y-velocity after the boundary check of `update` (lines 42-45) for a
particle whose y-velocity is the real `c`. -/
def reflectedVy (h : ℝ) (b : Bubble) (c : ℝ) : ℝ :=
  if (b.y + Num.fin c - Num.fin b.radius).lt (Num.fin 0)
      ∨ (b.y + Num.fin c + Num.fin b.radius).gt (Num.fin h) then -c else c

/-- The radius bound `[minRadius, maxRadius] = [5, 50]`. -/
def Bubble.RadiusInRange (b : Bubble) : Prop := 5 ≤ b.radius ∧ b.radius ≤ 50

/-- The position bound of the spec: the centre is a pair of reals inside
`[radius, w - radius] × [radius, h - radius]`. -/
def Bubble.InBounds (w h : ℝ) (b : Bubble) : Prop :=
  ∃ x y : ℝ, b.x = Num.fin x ∧ b.y = Num.fin y
    ∧ b.radius ≤ x ∧ x ≤ w - b.radius ∧ b.radius ≤ y ∧ y ≤ h - b.radius

/-- Position and velocity are reals (none is `NaN`). -/
def Bubble.Defined (b : Bubble) : Prop :=
  ∃ x y a c : ℝ, b.x = Num.fin x ∧ b.y = Num.fin y ∧ b.vx = Num.fin a ∧ b.vy = Num.fin c

/-- A frame without merge or split on the collection `bs` with draws `g`: no
pair `(i, j)`, `i < j`, passes the merge test when the scan reaches it (with
particle `i` updated and particle `j` not yet), and none of the split draws,
one for each particle, is below 0.002. -/
def Quiet (w h : ℝ) (bs : List Bubble) (g : Draws) : Prop :=
  (∀ (i j : ℕ) (bi bj : Bubble), i < j → bs[i]? = some bi → bs[j]? = some bj →
      ¬ overlap (bi.update w h) bj)
  ∧ ∀ n : ℕ, n < bs.length → ¬ g n < 0.002

/-- Each of the next `n` frames is quiet. -/
def QuietRun (w h : ℝ) : ℕ → List Bubble → Draws → Prop
  | 0, _, _ => True
  | n + 1, bs, g =>
    Quiet w h bs g ∧ ∀ r, animate w h bs g = Outcome.done r → QuietRun w h n r.1 r.2

/-! ## Arithmetic of `Num` -/

namespace Num

@[simp] theorem fin_add (a b : ℝ) : fin a + fin b = fin (a + b) := rfl
@[simp] theorem fin_sub (a b : ℝ) : fin a - fin b = fin (a - b) := rfl
@[simp] theorem fin_mul (a b : ℝ) : fin a * fin b = fin (a * b) := rfl
@[simp] theorem nan_add (a : Num) : nan + a = nan := rfl
@[simp] theorem nan_sub (a : Num) : nan - a = nan := rfl
@[simp] theorem nan_mul (a : Num) : nan * a = nan := rfl
@[simp] theorem add_nan (a : Num) : a + nan = nan := by cases a <;> rfl
@[simp] theorem sub_nan (a : Num) : a - nan = nan := by cases a <;> rfl
@[simp] theorem mul_nan (a : Num) : a * nan = nan := by cases a <;> rfl
@[simp] theorem fin_div (a b : ℝ) : fin a / fin b = if b = 0 then nan else fin (a / b) := rfl
@[simp] theorem nan_div (a : Num) : nan / a = nan := rfl
@[simp] theorem div_nan (a : Num) : a / nan = nan := by cases a <;> rfl
@[simp] theorem sq_fin (a : ℝ) : (fin a).sq = fin (a * a) := rfl
@[simp] theorem sq_nan : nan.sq = nan := rfl
@[simp] theorem sqrt_fin (a : ℝ) : (fin a).sqrt = if a < 0 then nan else fin (Real.sqrt a) := rfl
@[simp] theorem sqrt_nan : nan.sqrt = nan := rfl
@[simp] theorem max_fin (a b : ℝ) : Num.max (fin a) (fin b) = fin (Max.max a b) := rfl
@[simp] theorem min_fin (a b : ℝ) : Num.min (fin a) (fin b) = fin (Min.min a b) := rfl
@[simp] theorem lt_fin (a b : ℝ) : (fin a).lt (fin b) ↔ a < b := Iff.rfl
@[simp] theorem gt_fin (a b : ℝ) : (fin a).gt (fin b) ↔ b < a := Iff.rfl
@[simp] theorem nan_lt (a : Num) : ¬ nan.lt a := fun h => by cases h
@[simp] theorem lt_nan (a : Num) : ¬ a.lt nan := fun h => by cases a <;> cases h
@[simp] theorem nan_gt (a : Num) : ¬ nan.gt a := lt_nan a
@[simp] theorem gt_nan (a : Num) : ¬ a.gt nan := nan_lt a

end Num

/-! ## The constructor -/

theorem orRandom_fin_of_ne (r : ℝ) (f : ℝ → ℝ) (g : Draws) (hr : r ≠ 0) :
    orRandom (Num.fin r) f g = (r, g) := by
  simp [orRandom, hr]

theorem mergeRadius_pos (r1 r2 : ℝ) (h1 : 0 < r1) :
    0 < min (Real.sqrt (r1 ^ 2 + r2 ^ 2)) 50 := by
  apply lt_min
  · apply Real.sqrt_pos.mpr; positivity
  · norm_num

theorem splitRadius_pos (r : ℝ) : 0 < max (r / Real.sqrt 2) 5 :=
  lt_max_of_lt_right (by norm_num)

/-! ## The method `update` -/

theorem reflect_fst (p : Num) (v r d : ℝ) :
    (reflect p (Num.fin v) r d).1
      = Num.fin (if (p - Num.fin r).lt (Num.fin 0) ∨ (p + Num.fin r).gt (Num.fin d)
          then -v else v) := by
  unfold reflect
  split_ifs <;> simp

theorem reflect_fst_nan (p : Num) (r d : ℝ) : (reflect p Num.nan r d).1 = Num.nan := by
  unfold reflect
  split_ifs <;> simp

theorem reflect_snd_fin (p v : ℝ) (r d : ℝ) :
    (reflect (Num.fin p) (Num.fin v) r d).2
      = Num.fin (if p - r < 0 ∨ d < p + r then max r (min (d - r) p) else p) := by
  unfold reflect
  simp only [Num.fin_sub, Num.fin_add, Num.lt_fin, Num.gt_fin]
  split_ifs <;> simp

/-- On a surface at least as wide as the particle, the boundary check leaves
the position in `[r, d - r]`. -/
theorem reflect_snd_range (p v r d : ℝ) (hd : 2 * r ≤ d) :
    ∃ q, (reflect (Num.fin p) (Num.fin v) r d).2 = Num.fin q ∧ r ≤ q ∧ q ≤ d - r := by
  refine ⟨_, reflect_snd_fin p v r d, ?_, ?_⟩
  · split_ifs with hc
    · exact le_max_left _ _
    · push_neg at hc; linarith [hc.1]
  · split_ifs with hc
    · apply max_le (by linarith) (min_le_left _ _)
    · push_neg at hc; linarith [hc.2]

theorem update_x (w h : ℝ) (b : Bubble) :
    (b.update w h).x = (reflect (b.x + b.vx) b.vx b.radius w).2 := rfl

theorem update_y (w h : ℝ) (b : Bubble) :
    (b.update w h).y = (reflect (b.y + b.vy) b.vy b.radius h).2 := rfl

theorem update_radius (w h : ℝ) (b : Bubble) : (b.update w h).radius = b.radius := rfl

theorem sum_sq_pos (a c : ℝ) (hne : a ≠ 0 ∨ c ≠ 0) : 0 < a * a + c * c := by
  rcases hne with h | h
  · have := mul_self_pos.mpr h; nlinarith [mul_self_nonneg c]
  · have := mul_self_pos.mpr h; nlinarith [mul_self_nonneg a]

/-- The minimum-speed step followed by the damping, on a real non-zero
velocity `(a1, c1)`. -/
theorem floor_damp (a1 c1 : ℝ) (hne : a1 ≠ 0 ∨ c1 ≠ 0) :
    let s := Real.sqrt (a1 * a1 + c1 * c1)
    let v : Num × Num :=
      if (Num.sqrt ((Num.fin a1).sq + (Num.fin c1).sq)).lt (Num.fin 0.5) then
        ((Num.fin a1 / Num.sqrt ((Num.fin a1).sq + (Num.fin c1).sq)) * Num.fin 0.5,
         (Num.fin c1 / Num.sqrt ((Num.fin a1).sq + (Num.fin c1).sq)) * Num.fin 0.5)
      else (Num.fin a1, Num.fin c1)
    0 < s ∧
    v.1 * Num.fin 0.99 = Num.fin ((if s < 0.5 then a1 / s * 0.5 else a1) * 0.99) ∧
    v.2 * Num.fin 0.99 = Num.fin ((if s < 0.5 then c1 / s * 0.5 else c1) * 0.99) := by
  intro s v
  have hpos := sum_sq_pos a1 c1 hne
  have hnn : ¬ (a1 * a1 + c1 * c1 < 0) := not_lt.mpr hpos.le
  have hs : 0 < s := Real.sqrt_pos.mpr hpos
  refine ⟨hs, ?_, ?_⟩
  · simp only [v, Num.sq_fin, Num.fin_add, Num.sqrt_fin, if_neg hnn, Num.lt_fin]
    split_ifs with h
    · simp [hs.ne.symm, s]
    · simp
  · simp only [v, Num.sq_fin, Num.fin_add, Num.sqrt_fin, if_neg hnn, Num.lt_fin]
    split_ifs with h
    · simp [hs.ne.symm, s]
    · simp

theorem reflectedVx_sq (w : ℝ) (b : Bubble) (a : ℝ) :
    reflectedVx w b a * reflectedVx w b a = a * a := by
  unfold reflectedVx; split_ifs <;> ring

theorem reflectedVy_sq (h : ℝ) (b : Bubble) (c : ℝ) :
    reflectedVy h b c * reflectedVy h b c = c * c := by
  unfold reflectedVy; split_ifs <;> ring

theorem reflectedVx_of_left (w px a : ℝ) (b : Bubble) (hx : b.x = Num.fin px)
    (hleft : px + a - b.radius < 0) : reflectedVx w b a = -a := by
  unfold reflectedVx
  rw [hx]
  simp only [Num.fin_add, Num.fin_sub, Num.lt_fin]
  rw [if_pos (Or.inl hleft)]

/-- The velocity after `update` of a particle with real non-zero velocity
`(a, c)` and speed `s`: the reflected velocity, rescaled by `0.5 / s` when
`s < 0.5`, times `0.99`. -/
theorem update_velocity (w h a c : ℝ) (b : Bubble)
    (hvx : b.vx = Num.fin a) (hvy : b.vy = Num.fin c) (hne : a ≠ 0 ∨ c ≠ 0) :
    (b.update w h).vx
        = Num.fin ((if Real.sqrt (a * a + c * c) < 0.5
            then reflectedVx w b a / Real.sqrt (a * a + c * c) * 0.5
            else reflectedVx w b a) * 0.99)
    ∧ (b.update w h).vy
        = Num.fin ((if Real.sqrt (a * a + c * c) < 0.5
            then reflectedVy h b c / Real.sqrt (a * a + c * c) * 0.5
            else reflectedVy h b c) * 0.99) := by
  have hne1 : reflectedVx w b a ≠ 0 ∨ reflectedVy h b c ≠ 0 := by
    unfold reflectedVx reflectedVy
    rcases hne with h0 | h0
    · left; split_ifs <;> simpa using h0
    · right; split_ifs <;> simpa using h0
  have key := floor_damp (reflectedVx w b a) (reflectedVy h b c) hne1
  simp only [reflectedVx_sq, reflectedVy_sq] at key
  have e1 : (reflect (b.x + b.vx) b.vx b.radius w).1 = Num.fin (reflectedVx w b a) := by
    rw [hvx]; exact reflect_fst _ _ _ _
  have e2 : (reflect (b.y + b.vy) b.vy b.radius h).1 = Num.fin (reflectedVy h b c) := by
    rw [hvy]; exact reflect_fst _ _ _ _
  simp only [Bubble.update, e1, e2]
  exact ⟨key.2.1, key.2.2⟩

/-- The speed after `update` of a particle with real non-zero velocity of
speed `s` is `0.99 * max s 0.5`. -/
theorem update_speed (w h a c : ℝ) (b : Bubble)
    (hvx : b.vx = Num.fin a) (hvy : b.vy = Num.fin c) (hne : a ≠ 0 ∨ c ≠ 0) :
    (b.update w h).speed = Num.fin (0.99 * max (Real.sqrt (a * a + c * c)) 0.5) := by
  obtain ⟨h1, h2⟩ := update_velocity w h a c b hvx hvy hne
  have hpos := sum_sq_pos a c hne
  have hs : 0 < Real.sqrt (a * a + c * c) := Real.sqrt_pos.mpr hpos
  have hss : Real.sqrt (a * a + c * c) * Real.sqrt (a * a + c * c) = a * a + c * c :=
    Real.mul_self_sqrt hpos.le
  have hr := reflectedVx_sq w b a
  have hr2 := reflectedVy_sq h b c
  set s := Real.sqrt (a * a + c * c) with hsdef
  set a1 := reflectedVx w b a
  set c1 := reflectedVy h b c
  unfold Bubble.speed
  rw [h1, h2]
  simp only [Num.sq_fin, Num.fin_add, Num.sqrt_fin]
  rw [if_neg (by nlinarith [mul_self_nonneg ((if s < 0.5 then a1 / s * 0.5 else a1) * 0.99),
    mul_self_nonneg ((if s < 0.5 then c1 / s * 0.5 else c1) * 0.99)])]
  congr 1
  split_ifs with hlt
  · rw [max_eq_right hlt.le]
    have : a1 / s * 0.5 * 0.99 * (a1 / s * 0.5 * 0.99) + c1 / s * 0.5 * 0.99 * (c1 / s * 0.5 * 0.99)
        = (0.99 * 0.5) * (0.99 * 0.5) := by
      field_simp
      nlinarith
    rw [this, Real.sqrt_mul_self (by norm_num)]
  · push_neg at hlt
    rw [max_eq_left hlt]
    have : a1 * 0.99 * (a1 * 0.99) + c1 * 0.99 * (c1 * 0.99) = (0.99 * s) * (0.99 * s) := by
      nlinarith
    rw [this, Real.sqrt_mul_self (by positivity)]

/-- The x-velocity after `update` is a positive multiple of the reflected
x-velocity, whatever the y-velocity (a real or `NaN`). -/
theorem update_vx_sign (w h a : ℝ) (b : Bubble) (hvx : b.vx = Num.fin a) (ha : a ≠ 0) :
    ∃ k : ℝ, 0 < k ∧ (b.update w h).vx = Num.fin (k * reflectedVx w b a) := by
  cases hvy : b.vy with
  | nan =>
    refine ⟨0.99, by norm_num, ?_⟩
    have e1 : (reflect (b.x + b.vx) b.vx b.radius w).1 = Num.fin (reflectedVx w b a) := by
      rw [hvx]; exact reflect_fst _ _ _ _
    simp only [Bubble.update, e1, hvy, reflect_fst_nan]
    simp [mul_comm]
  | fin c =>
    have hv := (update_velocity w h a c b hvx hvy (Or.inl ha)).1
    have hs : 0 < Real.sqrt (a * a + c * c) :=
      Real.sqrt_pos.mpr (sum_sq_pos a c (Or.inl ha))
    by_cases hlt : Real.sqrt (a * a + c * c) < 0.5
    · refine ⟨0.5 / Real.sqrt (a * a + c * c) * 0.99, by positivity, ?_⟩
      rw [hv, if_pos hlt]
      congr 1
      field_simp
      ring
    · refine ⟨0.99, by norm_num, ?_⟩
      rw [hv, if_neg hlt, mul_comm]

/-! ## `mergeBubbles` and `splitBubble` -/

theorem mergeBubbles_radius_eq (b1 b2 : Bubble) (g : Draws) (h1 : 0 < b1.radius) :
    (mergeBubbles b1 b2 g).1.radius = min (Real.sqrt (b1.radius ^ 2 + b2.radius ^ 2)) 50 := by
  have hpos := mergeRadius_pos b1.radius b2.radius h1
  simp only [mergeBubbles, Bubble.new, Bubble.maxRadius]
  rw [orRandom_fin_of_ne _ _ _ hpos.ne.symm]

/-- A merged x-velocity that is not zero is kept by the constructor. -/
theorem mergeBubbles_vx_of_ne (b1 b2 : Bubble) (g : Draws) (v1 v2 : ℝ)
    (h1 : 0 < b1.radius) (h2 : 0 < b2.radius)
    (hv1 : b1.vx = Num.fin v1) (hv2 : b2.vx = Num.fin v2)
    (hne : v1 * b1.radius + v2 * b2.radius ≠ 0) :
    (mergeBubbles b1 b2 g).1.vx
      = Num.fin ((v1 * b1.radius + v2 * b2.radius) / (b1.radius + b2.radius)) := by
  have hpos := mergeRadius_pos b1.radius b2.radius h1
  have hs : b1.radius + b2.radius ≠ 0 := by positivity
  simp only [mergeBubbles, Bubble.new, Bubble.maxRadius, hv1, hv2, Num.fin_mul, Num.fin_add,
    Num.fin_div, if_neg hs]
  rw [orRandom_fin_of_ne _ _ _ hpos.ne.symm, orRandom_fin_of_ne _ _ _ (div_ne_zero hne hs)]

theorem splitBubble_fst (b : Bubble) (g : Draws) :
    ∃ c1 c2 : Bubble, (splitBubble b g).1 = [c1, c2]
      ∧ c1.radius = max (b.radius / Real.sqrt 2) 5
      ∧ c2.radius = max (b.radius / Real.sqrt 2) 5 := by
  have hpos := splitRadius_pos b.radius
  refine ⟨_, _, rfl, ?_, ?_⟩
  · simp only [Bubble.new, Bubble.minRadius]
    rw [orRandom_fin_of_ne _ _ _ hpos.ne.symm]
  · simp only [Bubble.new, Bubble.minRadius]
    rw [orRandom_fin_of_ne _ _ _ hpos.ne.symm]

/-! ## The steps of the frame -/

theorem getAt_some {bs : List Bubble} {i : ℤ} {b : Bubble} (h : getAt bs i = some b) :
    0 ≤ i ∧ i.toNat < bs.length ∧ bs[i.toNat]? = some b := by
  unfold getAt at h
  split_ifs at h with hneg
  refine ⟨not_lt.mp hneg, ?_, h⟩
  exact (List.getElem?_eq_some_iff.mp h).1

theorem findCollision_some {bi : Bubble} :
    ∀ {rest : List Bubble} {j k : ℕ} {bk : Bubble},
      findCollision bi rest j = some (k, bk) →
        j ≤ k ∧ rest[k - j]? = some bk ∧ overlap bi bk := by
  intro rest
  induction rest with
  | nil => intro j k bk h; simp [findCollision] at h
  | cons b rest ih =>
    intro j k bk h
    unfold findCollision at h
    split_ifs at h with ho
    · simp only [Option.some.injEq, Prod.mk.injEq] at h
      obtain ⟨rfl, rfl⟩ := h
      simp [ho]
    · obtain ⟨h1, h2, h3⟩ := ih h
      refine ⟨by omega, ?_, h3⟩
      have : k - j = (k - (j + 1)) + 1 := by omega
      rw [this]
      simpa using h2

theorem iteration_some {w h : ℝ} {s s1 : Frame} (hi : iteration w h s = some s1) :
    ∃ su sm ss, updateStep w h s = some su ∧ mergeStep su = some sm ∧ splitStep sm = some ss
      ∧ s1 = { ss with i := ss.i + 1 } := by
  unfold iteration at hi
  simp only [Option.map_eq_some', Option.bind_eq_some] at hi
  obtain ⟨ss, ⟨sm, ⟨su, h1, h2⟩, h3⟩, h4⟩ := hi
  exact ⟨su, sm, ss, h1, h2, h3, h4.symm⟩

/-- The effect of `updateStep` when it does not throw. -/
theorem updateStep_some {w h : ℝ} {s su : Frame} (hu : updateStep w h s = some su) :
    ∃ b, getAt s.bubbles s.i = some b
      ∧ su = { s with bubbles := s.bubbles.set s.i.toNat (b.update w h) } := by
  unfold updateStep at hu
  split at hu
  · cases hu
  · next b hb => exact ⟨b, hb, by simpa using hu.symm⟩

/-- The effect of `mergeStep`: nothing, or the merge of particle `i` with a later particle `j`. -/
theorem mergeStep_some {s sm : Frame} (hm : mergeStep s = some sm) :
    sm = s ∨ ∃ bi bj j, getAt s.bubbles s.i = some bi ∧ s.i.toNat < j
      ∧ s.bubbles[j]? = some bj ∧ overlap bi bj
      ∧ sm = { bubbles := (s.bubbles.eraseIdx j).eraseIdx s.i.toNat,
               newBubbles := s.newBubbles ++ [(mergeBubbles bi bj s.g).1],
               i := s.i - 1,
               g := (mergeBubbles bi bj s.g).2 } := by
  unfold mergeStep at hm
  split at hm
  · cases hm
  · next bi hbi =>
    split at hm
    · left; simpa using hm.symm
    · next j bj hf =>
      right
      obtain ⟨h1, h2, h3⟩ := findCollision_some hf
      refine ⟨bi, bj, j, hbi, by omega, ?_, h3, by simpa using hm.symm⟩
      rw [List.getElem?_drop] at h2
      have : s.i.toNat + 1 + (j - (s.i.toNat + 1)) = j := by omega
      rwa [this] at h2

/-- The effect of `splitStep` when it does not throw: the draw is consumed and either nothing else happens, or `bubbles[i]` is split. -/
theorem splitStep_some {s ss : Frame} (hs : splitStep s = some ss) :
    ss = { s with g := s.g.tail } ∨ ∃ b, s.g 0 < 0.002 ∧ getAt s.bubbles s.i = some b
      ∧ b.radius > b.minRadius * 2
      ∧ ss = { bubbles := s.bubbles.eraseIdx s.i.toNat,
               newBubbles := s.newBubbles ++ (splitBubble b s.g.tail).1,
               i := s.i - 1,
               g := (splitBubble b s.g.tail).2 } := by
  unfold splitStep at hs
  split_ifs at hs with hd
  · split at hs
    · cases hs
    · next b hb =>
      split_ifs at hs with hr
      · right; exact ⟨b, hd, hb, hr, by simpa using hs.symm⟩
      · left; simpa using hs.symm
  · left; simpa using hs.symm

/-! ## The loop of the frame -/

/-- Each pass through the loop body lowers `bubbles.length - i` and keeps `i`
non-negative. -/
theorem iteration_measure {w h : ℝ} {s s1 : Frame} (hi : iteration w h s = some s1) :
    0 ≤ s1.i ∧ (s1.bubbles.length : ℤ) - s1.i < (s.bubbles.length : ℤ) - s.i := by
  obtain ⟨su, sm, ss, hu, hm, hs, rfl⟩ := iteration_some hi
  obtain ⟨b, hb, rfl⟩ := updateStep_some hu
  obtain ⟨hi0, hlt, -⟩ := getAt_some hb
  have hnat : (s.i.toNat : ℤ) = s.i := Int.toNat_of_nonneg hi0
  rcases mergeStep_some hm with rfl | ⟨bi, bj, j, hbi, hj, hbj, -, rfl⟩
  · rcases splitStep_some hs with rfl | ⟨b2, -, hb2, -, rfl⟩
    · simp only [List.length_set]
      omega
    · simp only [List.length_set]
      rw [List.length_eraseIdx_of_lt (by simpa using hlt)]
      simp only [List.length_set]
      omega
  · dsimp only at hj hbj hs ⊢
    have hjl : j < s.bubbles.length := by
      simpa using (List.getElem?_eq_some_iff.mp hbj).1
    have hl1 : ((s.bubbles.set s.i.toNat (b.update w h)).eraseIdx j).length
        = s.bubbles.length - 1 := by
      rw [List.length_eraseIdx_of_lt (by simpa using hjl)]; simp
    have hl2 : (((s.bubbles.set s.i.toNat (b.update w h)).eraseIdx j).eraseIdx s.i.toNat).length
        = s.bubbles.length - 2 := by
      rw [List.length_eraseIdx_of_lt (by rw [hl1]; omega), hl1]; omega
    rcases splitStep_some hs with rfl | ⟨b2, -, hb2, -, rfl⟩
    · dsimp only
      rw [hl2]
      omega
    · obtain ⟨h0, hl3, -⟩ := getAt_some hb2
      dsimp only at h0 hl3 ⊢
      rw [List.length_eraseIdx_of_lt hl3, hl2]
      omega

/-- The fuel given by `animate` is never exhausted. -/
theorem scan_fuel (w h : ℝ) :
    ∀ (fuel : ℕ) (s : Frame), 0 < fuel → (s.bubbles.length : ℤ) - s.i < fuel →
      scan w h fuel s ≠ Outcome.outOfFuel := by
  intro fuel
  induction fuel with
  | zero => intro s h0; omega
  | succ n ih =>
    intro s _ hm
    unfold scan
    split_ifs with hlt
    · cases hi : iteration w h s with
      | none => simp
      | some s1 =>
        obtain ⟨-, hdec⟩ := iteration_measure hi
        exact ih s1 (by omega) (by push_cast at hm; omega)
    · simp

/-- Loop invariants: what the body preserves holds when the loop ends. -/
theorem scan_invariant (w h : ℝ) (P : Frame → Prop)
    (hstep : ∀ s s1, P s → s.i < s.bubbles.length → iteration w h s = some s1 → P s1) :
    ∀ (fuel : ℕ) (s s1 : Frame), P s → scan w h fuel s = Outcome.done s1 →
      P s1 ∧ ¬ s1.i < s1.bubbles.length := by
  intro fuel
  induction fuel with
  | zero => intro s s1 _ hs; simp [scan] at hs
  | succ n ih =>
    intro s s1 hP hs
    unfold scan at hs
    split_ifs at hs with hlt
    · cases hi : iteration w h s with
      | none => simp [hi] at hs
      | some s2 =>
        simp only [hi] at hs
        exact ih s2 s1 (hstep s s2 hP hlt hi) hs
    · simp only [Outcome.done.injEq] at hs
      subst hs
      exact ⟨hP, hlt⟩

theorem refill_length (w h : ℝ) (bs : List Bubble) (g : Draws) :
    10 ≤ (refill w h bs g).1.length := by
  induction bs, g using refill.induct w h with
  | case1 bs g hlt b ih =>
    rw [refill, if_pos hlt]
    exact ih
  | case2 bs g hge =>
    rw [refill, if_neg hge]
    simpa using hge

theorem animate_done {w h : ℝ} {bs : List Bubble} {g : Draws} {r : List Bubble × Draws}
    (ha : animate w h bs g = Outcome.done r) :
    ∃ s, scan w h (bs.length + 1) { bubbles := bs, newBubbles := [], i := 0, g := g }
        = Outcome.done s
      ∧ r = refill w h (s.bubbles ++ s.newBubbles) s.g := by
  unfold animate at ha
  split at ha
  · next s hs => exact ⟨s, hs, by simpa using ha.symm⟩
  · cases ha
  · cases ha

/-! ## The radius bound -/

theorem Draws.Valid.tail {g : Draws} (hg : g.Valid) : g.tail.Valid := fun n => hg (n + 1)

theorem orRandom_snd_valid (a : Num) (f : ℝ → ℝ) {g : Draws} (hg : g.Valid) :
    (orRandom a f g).2.Valid := by
  unfold orRandom
  split
  · split_ifs
    · exact hg.tail
    · exact hg
  · exact hg.tail

theorem new_snd_valid (x y r vx vy : Num) {g : Draws} (hg : g.Valid) :
    (Bubble.new x y r vx vy g).2.Valid := by
  unfold Bubble.new
  exact orRandom_snd_valid _ _ (orRandom_snd_valid _ _ (orRandom_snd_valid _ _ hg))

theorem mergeBubbles_snd_valid (b1 b2 : Bubble) {g : Draws} (hg : g.Valid) :
    (mergeBubbles b1 b2 g).2.Valid := new_snd_valid _ _ _ _ _ hg

theorem splitBubble_snd_valid (b : Bubble) {g : Draws} (hg : g.Valid) :
    (splitBubble b g).2.Valid := by
  unfold splitBubble
  dsimp only
  exact new_snd_valid _ _ _ _ _ (new_snd_valid _ _ _ _ _ hg.tail)

theorem mergeBubbles_radiusInRange (b1 b2 : Bubble) (g : Draws) (h1 : b1.RadiusInRange) :
    (mergeBubbles b1 b2 g).1.RadiusInRange := by
  unfold Bubble.RadiusInRange at *
  rw [mergeBubbles_radius_eq b1 b2 g (by linarith [h1.1])]
  refine ⟨le_min ?_ (by norm_num), min_le_right _ _⟩
  apply Real.le_sqrt_of_sq_le
  nlinarith [h1.1, sq_nonneg b2.radius]

theorem splitBubble_radiusInRange (b : Bubble) (g : Draws) (h1 : b.RadiusInRange) :
    ∀ c ∈ (splitBubble b g).1, c.RadiusInRange := by
  obtain ⟨c1, c2, hl, e1, e2⟩ := splitBubble_fst b g
  have hle : max (b.radius / Real.sqrt 2) 5 ≤ 50 := by
    apply max_le _ (by norm_num)
    have h2 : (1 : ℝ) ≤ Real.sqrt 2 := by
      rw [Real.one_le_sqrt]; norm_num
    rw [div_le_iff₀ (by positivity)]
    nlinarith [h1.1, h1.2]
  intro c hc
  rw [hl] at hc
  simp only [List.mem_cons, List.mem_singleton, List.not_mem_nil, or_false] at hc
  unfold Bubble.RadiusInRange
  rcases hc with rfl | rfl
  · rw [e1]; exact ⟨le_max_right _ _, hle⟩
  · rw [e2]; exact ⟨le_max_right _ _, hle⟩

theorem new_default_radiusInRange (x y vx vy : Num) {g : Draws} (hg : g.Valid) :
    (Bubble.new x y Num.nan vx vy g).1.RadiusInRange := by
  unfold Bubble.RadiusInRange
  simp only [Bubble.new, orRandom]
  constructor <;> linarith [(hg 0).1, (hg 0).2]

theorem refill_radiusInRange (w h : ℝ) (bs : List Bubble) (g : Draws)
    (hbs : ∀ b ∈ bs, b.RadiusInRange) (hg : g.Valid) :
    ∀ b ∈ (refill w h bs g).1, b.RadiusInRange := by
  induction bs, g using refill.induct w h with
  | case1 bs g hlt b ih =>
    rw [refill, if_pos hlt]
    apply ih
    · intro c hc
      rw [List.mem_append, List.mem_singleton] at hc
      rcases hc with hc | rfl
      · exact hbs c hc
      · exact new_default_radiusInRange _ _ _ _ hg.tail.tail
    · exact new_snd_valid _ _ _ _ _ hg.tail.tail
  | case2 bs g hge =>
    rw [refill, if_neg hge]
    exact hbs

/-- The radius bound and the validity of the draws are kept by the loop body. -/
theorem iteration_radiusInRange {w h : ℝ} {s s1 : Frame}
    (hP : (∀ b ∈ s.bubbles, b.RadiusInRange) ∧ (∀ b ∈ s.newBubbles, b.RadiusInRange)
      ∧ s.g.Valid)
    (hi : iteration w h s = some s1) :
    (∀ b ∈ s1.bubbles, b.RadiusInRange) ∧ (∀ b ∈ s1.newBubbles, b.RadiusInRange)
      ∧ s1.g.Valid := by
  obtain ⟨hB, hN, hG⟩ := hP
  obtain ⟨su, sm, ss, hu, hm, hs, rfl⟩ := iteration_some hi
  obtain ⟨b, hb, rfl⟩ := updateStep_some hu
  obtain ⟨-, -, hget⟩ := getAt_some hb
  have hbR : b.RadiusInRange := hB b (List.getElem?_mem hget)
  have hU : ∀ c ∈ s.bubbles.set s.i.toNat (b.update w h), c.RadiusInRange := by
    intro c hc
    rcases List.mem_or_eq_of_mem_set hc with hc | rfl
    · exact hB c hc
    · exact hbR
  have hsplit : ∀ sm : Frame, splitStep sm = some ss → (∀ b ∈ sm.bubbles, b.RadiusInRange) →
      (∀ b ∈ sm.newBubbles, b.RadiusInRange) → sm.g.Valid →
      (∀ b ∈ ss.bubbles, b.RadiusInRange) ∧ (∀ b ∈ ss.newBubbles, b.RadiusInRange)
        ∧ ss.g.Valid := by
    intro sm hs h1 h2 h3
    rcases splitStep_some hs with rfl | ⟨b2, -, hb2, -, rfl⟩
    · exact ⟨h1, h2, h3.tail⟩
    · obtain ⟨-, -, hget2⟩ := getAt_some hb2
      refine ⟨fun c hc => h1 c (List.mem_of_mem_eraseIdx hc), ?_, splitBubble_snd_valid _ h3.tail⟩
      intro c hc
      rw [List.mem_append] at hc
      rcases hc with hc | hc
      · exact h2 c hc
      · exact splitBubble_radiusInRange b2 _ (h1 b2 (List.getElem?_mem hget2)) c hc
  rcases mergeStep_some hm with rfl | ⟨bi, bj, j, hbi, -, -, -, rfl⟩
  · exact hsplit _ hs hU hN hG
  · obtain ⟨-, -, hgeti⟩ := getAt_some hbi
    refine hsplit _ hs ?_ ?_ (mergeBubbles_snd_valid _ _ hG)
    · intro c hc
      exact hU c (List.mem_of_mem_eraseIdx (List.mem_of_mem_eraseIdx hc))
    · intro c hc
      rw [List.mem_append, List.mem_singleton] at hc
      rcases hc with hc | rfl
      · exact hN c hc
      · exact mergeBubbles_radiusInRange _ _ _ (hU bi (List.getElem?_mem hgeti))

/-! ## Frames on small collections -/

theorem animate_nil (w h : ℝ) (g : Draws) :
    animate w h [] g = Outcome.done (refill w h [] g) := by
  simp [animate, scan]

/-- A frame on one particle whose split draw fails: the particle is updated. -/
theorem animate_single (w h : ℝ) (b : Bubble) (g : Draws) (hd : ¬ g 0 < 0.002) :
    animate w h [b] g = Outcome.done (refill w h [b.update w h] g.tail) := by
  simp [animate, scan, iteration, updateStep, mergeStep, splitStep, getAt, findCollision, hd]

/-- A frame on one particle that is split. -/
theorem animate_single_split (w h : ℝ) (b : Bubble) (g : Draws) (hd : g 0 < 0.002)
    (hr : (b.update w h).radius > (b.update w h).minRadius * 2) :
    animate w h [b] g = Outcome.done
      (refill w h (splitBubble (b.update w h) g.tail).1 (splitBubble (b.update w h) g.tail).2) := by
  simp [animate, scan, iteration, updateStep, mergeStep, splitStep, getAt, findCollision, hd, hr]

/-- A frame on two particles that merge, when the split draw that follows
the merge fails. -/
theorem animate_pair_merge (w h : ℝ) (b0 b1 : Bubble) (g : Draws)
    (ho : overlap (b0.update w h) b1)
    (hd : ¬ (mergeBubbles (b0.update w h) b1 g).2 0 < 0.002) :
    animate w h [b0, b1] g = Outcome.done
      (refill w h [(mergeBubbles (b0.update w h) b1 g).1]
        (mergeBubbles (b0.update w h) b1 g).2.tail) := by
  simp [animate, scan, iteration, updateStep, mergeStep, splitStep, getAt, findCollision, ho, hd]

/-- A frame on two particles that merge, when the split draw that follows the
merge succeeds: the split test reads `bubbles[-1].radius`. -/
theorem animate_pair_merge_typeError (w h : ℝ) (b0 b1 : Bubble) (g : Draws)
    (ho : overlap (b0.update w h) b1)
    (hd : (mergeBubbles (b0.update w h) b1 g).2 0 < 0.002) :
    animate w h [b0, b1] g = Outcome.typeError := by
  simp [animate, scan, iteration, updateStep, mergeStep, splitStep, getAt, findCollision, ho, hd]

/-! ## Constant streams of draws -/

theorem orRandom_snd_const (a : Num) (f : ℝ → ℝ) (c : ℝ) :
    (orRandom a f (fun _ => c)).2 = fun _ => c := by
  unfold orRandom
  split
  · split_ifs <;> rfl
  · rfl

theorem new_snd_const (x y r vx vy : Num) (c : ℝ) :
    (Bubble.new x y r vx vy (fun _ => c)).2 = fun _ => c := by
  unfold Bubble.new
  simp only [orRandom_snd_const]

theorem mergeBubbles_snd_const (b1 b2 : Bubble) (c : ℝ) :
    (mergeBubbles b1 b2 (fun _ => c)).2 = fun _ => c := new_snd_const _ _ _ _ _ c

/-! ## Positions -/

theorem new_x (x y r vx vy : Num) (g : Draws) : (Bubble.new x y r vx vy g).1.x = x := rfl

theorem new_y (x y r vx vy : Num) (g : Draws) : (Bubble.new x y r vx vy g).1.y = y := rfl

theorem mergeBubbles_x (b1 b2 : Bubble) (g : Draws) :
    (mergeBubbles b1 b2 g).1.x = (b1.x + b2.x) / Num.fin 2 := rfl

theorem mergeBubbles_y (b1 b2 : Bubble) (g : Draws) :
    (mergeBubbles b1 b2 g).1.y = (b1.y + b2.y) / Num.fin 2 := rfl

/-- The position after `update` of a particle that touches no wall. -/
theorem update_pos_free (w h px py a c : ℝ) (b : Bubble)
    (hx : b.x = Num.fin px) (hy : b.y = Num.fin py)
    (hvx : b.vx = Num.fin a) (hvy : b.vy = Num.fin c)
    (h1 : 0 ≤ px + a - b.radius) (h2 : px + a + b.radius ≤ w)
    (h3 : 0 ≤ py + c - b.radius) (h4 : py + c + b.radius ≤ h) :
    (b.update w h).x = Num.fin (px + a) ∧ (b.update w h).y = Num.fin (py + c) := by
  constructor
  · rw [update_x, hx, hvx, Num.fin_add, reflect_snd_fin, if_neg]
    push_neg; exact ⟨h1, h2⟩
  · rw [update_y, hy, hvy, Num.fin_add, reflect_snd_fin, if_neg]
    push_neg; exact ⟨h3, h4⟩

/-- The merge test on two particles with real centres. -/
theorem overlap_fin (bi bj : Bubble) (xi yi xj yj : ℝ)
    (hxi : bi.x = Num.fin xi) (hyi : bi.y = Num.fin yi)
    (hxj : bj.x = Num.fin xj) (hyj : bj.y = Num.fin yj) :
    overlap bi bj ↔
      Real.sqrt ((xi - xj) * (xi - xj) + (yi - yj) * (yi - yj)) < bi.radius + bj.radius := by
  unfold overlap
  rw [hxi, hyi, hxj, hyj]
  have hnn : ¬ ((xi - xj) * (xi - xj) + (yi - yj) * (yi - yj) < 0) :=
    not_lt.mpr (add_nonneg (mul_self_nonneg _) (mul_self_nonneg _))
  simp only [Num.fin_sub, Num.fin_mul, Num.fin_add, Num.sqrt_fin, if_neg hnn, Num.lt_fin]

/-! ## The refill loop only appends -/

theorem refill_append (w h : ℝ) (bs : List Bubble) (g : Draws) :
    ∃ injected, (refill w h bs g).1 = bs ++ injected := by
  induction bs, g using refill.induct w h with
  | case1 bs g hlt b ih =>
    rw [refill, if_pos hlt]
    obtain ⟨inj, hinj⟩ := ih
    exact ⟨b.1 :: inj, by rw [hinj]; simp⟩
  | case2 bs g hge =>
    rw [refill, if_neg hge]
    exact ⟨[], by simp⟩

theorem refill_mem_of_mem (w h : ℝ) {bs : List Bubble} (g : Draws) {b : Bubble} (hb : b ∈ bs) :
    b ∈ (refill w h bs g).1 := by
  obtain ⟨inj, hinj⟩ := refill_append w h bs g
  rw [hinj]
  exact List.mem_append_left _ hb

/-- The first particle the refill loop injects into an empty collection. -/
theorem refill_nil_mem (w h : ℝ) (g : Draws) :
    (Bubble.new (Num.fin (g 0 * w)) (Num.fin (g 1 * h)) Num.nan Num.nan Num.nan g.tail.tail).1
      ∈ (refill w h [] g).1 := by
  rw [refill, if_pos (by simp)]
  exact refill_mem_of_mem w h _ (by simp)

/-- The two children of a split: radius and centre. -/
theorem splitBubble_children (b : Bubble) (g : Draws) :
    ∃ c1 c2 : Bubble, (splitBubble b g).1 = [c1, c2]
      ∧ c1.radius = max (b.radius / Real.sqrt 2) 5
      ∧ c2.radius = max (b.radius / Real.sqrt 2) 5
      ∧ c1.x = b.x + Num.fin (Real.cos (g 0 * Real.pi * 2))
          * Num.fin (max (b.radius / Real.sqrt 2) 5)
      ∧ c1.y = b.y + Num.fin (Real.sin (g 0 * Real.pi * 2))
          * Num.fin (max (b.radius / Real.sqrt 2) 5)
      ∧ c2.x = b.x - Num.fin (Real.cos (g 0 * Real.pi * 2))
          * Num.fin (max (b.radius / Real.sqrt 2) 5)
      ∧ c2.y = b.y - Num.fin (Real.sin (g 0 * Real.pi * 2))
          * Num.fin (max (b.radius / Real.sqrt 2) 5) := by
  have hpos := splitRadius_pos b.radius
  refine ⟨_, _, rfl, ?_, ?_, rfl, rfl, rfl, rfl⟩
  · simp only [Bubble.new, Bubble.minRadius]
    rw [orRandom_fin_of_ne _ _ _ hpos.ne.symm]
  · simp only [Bubble.new, Bubble.minRadius]
    rw [orRandom_fin_of_ne _ _ _ hpos.ne.symm]

theorem not_inBounds_of_x_lt (w h : ℝ) (b : Bubble) (x : ℝ) (hx : b.x = Num.fin x)
    (hlt : x < b.radius) : ¬ b.InBounds w h := by
  rintro ⟨x1, y1, e1, -, h1, -⟩
  rw [hx] at e1
  cases e1
  linarith

theorem not_inBounds_of_x_gt (w h : ℝ) (b : Bubble) (x : ℝ) (hx : b.x = Num.fin x)
    (hlt : w - b.radius < x) : ¬ b.InBounds w h := by
  rintro ⟨x1, y1, e1, -, -, h1, -⟩
  rw [hx] at e1
  cases e1
  linarith

/-! ## Survivors of the scan are inside the surface -/

/-- After `update`, a particle with real position and velocity on a surface
at least as large as its diameter is inside the surface. -/
theorem update_inBounds (w h : ℝ) (b : Bubble) (hd : b.Defined)
    (hw : 2 * b.radius ≤ w) (hh : 2 * b.radius ≤ h) : (b.update w h).InBounds w h := by
  obtain ⟨px, py, a, c, hx, hy, hvx, hvy⟩ := hd
  obtain ⟨x1, hx1, h1, h2⟩ := reflect_snd_range (px + a) a b.radius w hw
  obtain ⟨y1, hy1, h3, h4⟩ := reflect_snd_range (py + c) c b.radius h hh
  refine ⟨x1, y1, ?_, ?_, h1, h2, h3, h4⟩
  · rw [update_x, hx, hvx]; exact hx1
  · rw [update_y, hy, hvy]; exact hy1

/-- Removing an element at or after position `m` keeps a list whose first
`m` elements satisfy `P` and whose other elements satisfy `Q` that way. -/
theorem eraseIdx_split_ge {P Q : Bubble → Prop} {L : List Bubble} {m e : ℕ} (hme : m ≤ e)
    (hL : ∀ k b, L[k]? = some b → (k < m → P b) ∧ (m ≤ k → Q b)) :
    ∀ k b, (L.eraseIdx e)[k]? = some b → (k < m → P b) ∧ (m ≤ k → Q b) := by
  intro k b hk
  rw [List.getElem?_eraseIdx] at hk
  split_ifs at hk with hlt
  · exact hL k b hk
  · exact ⟨fun h => by omega, fun _ => (hL (k + 1) b hk).2 (by omega)⟩

/-- Removing an element before position `m` moves the boundary to `m - 1`. -/
theorem eraseIdx_split_lt {P Q : Bubble → Prop} {L : List Bubble} {m e : ℕ} (hem : e < m)
    (hL : ∀ k b, L[k]? = some b → (k < m → P b) ∧ (m ≤ k → Q b)) :
    ∀ k b, (L.eraseIdx e)[k]? = some b → (k < m - 1 → P b) ∧ (m - 1 ≤ k → Q b) := by
  intro k b hk
  rw [List.getElem?_eraseIdx] at hk
  split_ifs at hk with hlt
  · exact ⟨fun _ => (hL k b hk).1 (by omega), fun h => by omega⟩
  · exact ⟨fun h => (hL (k + 1) b hk).1 (by omega), fun h => (hL (k + 1) b hk).2 (by omega)⟩

/-- Replacing element `m` by one that satisfies `P` moves the boundary to
`m + 1`. -/
theorem set_split {P Q : Bubble → Prop} {L : List Bubble} {m : ℕ} {b1 : Bubble} (hb1 : P b1)
    (hL : ∀ k b, L[k]? = some b → (k < m → P b) ∧ (m ≤ k → Q b)) :
    ∀ k b, (L.set m b1)[k]? = some b → (k < m + 1 → P b) ∧ (m + 1 ≤ k → Q b) := by
  intro k b hk
  by_cases hkm : m = k
  · subst hkm
    have hb : b ∈ L.set m b1 := List.getElem?_mem hk
    have hlt : m < L.length := by
      simpa using (List.getElem?_eq_some_iff.mp hk).1
    rw [List.getElem?_set_self hlt] at hk
    cases hk
    exact ⟨fun _ => hb1, fun h => by omega⟩
  · rw [List.getElem?_set_ne hkm] at hk
    exact ⟨fun h => (hL k b hk).1 (by omega), fun h => (hL k b hk).2 (by omega)⟩

/-- The loop body keeps the particles before `i` processed (`P`) and those
from `i` on untouched (`Q`), when `update` turns `Q` into `P`. -/
theorem iteration_split {w h : ℝ} {P Q : Bubble → Prop}
    (hupd : ∀ b, Q b → P (b.update w h)) {s s1 : Frame}
    (hinv : ∃ m : ℕ, s.i = m ∧
      ∀ k b, s.bubbles[k]? = some b → (k < m → P b) ∧ (m ≤ k → Q b))
    (hi : iteration w h s = some s1) :
    ∃ m : ℕ, s1.i = m ∧
      ∀ k b, s1.bubbles[k]? = some b → (k < m → P b) ∧ (m ≤ k → Q b) := by
  obtain ⟨m, hm, hL⟩ := hinv
  obtain ⟨su, sm, ss, hu, hmg, hs, rfl⟩ := iteration_some hi
  obtain ⟨b, hb, rfl⟩ := updateStep_some hu
  obtain ⟨-, -, hget⟩ := getAt_some hb
  have hn : s.i.toNat = m := by rw [hm]; simp
  rw [hn] at hget
  have hU := set_split (hupd b ((hL m b hget).2 le_rfl)) hL
  rcases mergeStep_some hmg with rfl | ⟨bi, bj, j, -, hj, -, -, rfl⟩
  · rcases splitStep_some hs with rfl | ⟨b2, -, -, -, rfl⟩
    · exact ⟨m + 1, by simp [hm], by simpa [hn] using hU⟩
    · refine ⟨m, by simp [hm], ?_⟩
      have := eraseIdx_split_lt (Nat.lt_succ_self m) hU
      simpa [hn] using this
  · dsimp only at hj hs
    rw [hn] at hj
    have hM := eraseIdx_split_lt (Nat.lt_succ_self m)
      (eraseIdx_split_ge (show m + 1 ≤ j by omega) hU)
    simp only [Nat.add_sub_cancel] at hM
    rcases splitStep_some hs with rfl | ⟨b2, -, hb2, -, rfl⟩
    · exact ⟨m, by simp [hm], by simpa [hn] using hM⟩
    · obtain ⟨h0, -, -⟩ := getAt_some hb2
      dsimp only at h0 ⊢
      have hm1 : 1 ≤ m := by omega
      have hidx : (s.i - 1).toNat = m - 1 := by rw [hm]; omega
      refine ⟨m - 1, by rw [hm]; omega, ?_⟩
      have := eraseIdx_split_lt (show m - 1 < m by omega) hM
      simpa [hn, hidx] using this

/-! ## The claims -/

/-- C1, evaluated at a failing input.  Two overlapping particles at the
indices 0 and 1, every draw equal to 0.001: particle 0 is updated and merged
with particle 1, both are removed and `i` becomes -1; the split test then
draws 0.001 < 0.002 and reads `bubbles[-1].radius`, so the frame throws
instead of completing. -/
theorem animate_typeError_after_merge_at_zero :
    animate 1000 1000
      [⟨Num.fin 100, Num.fin 100, 10, Num.fin 0.6, Num.fin 0.8⟩,
       ⟨Num.fin 100, Num.fin 100, 10, Num.fin 0.6, Num.fin 0.8⟩]
      (fun _ => 0.001) = Outcome.typeError := by
  apply animate_pair_merge_typeError
  · obtain ⟨ex, ey⟩ := update_pos_free 1000 1000 100 100 0.6 0.8
      ⟨Num.fin 100, Num.fin 100, 10, Num.fin 0.6, Num.fin 0.8⟩ rfl rfl rfl rfl
      (by norm_num) (by norm_num) (by norm_num) (by norm_num)
    rw [overlap_fin _ _ _ _ 100 100 ex ey rfl rfl, update_radius]
    have : ((100 : ℝ) + 0.6 - 100) * (100 + 0.6 - 100) + (100 + 0.8 - 100) * (100 + 0.8 - 100)
        = 1 := by norm_num
    rw [this, Real.sqrt_one]
    norm_num
  · rw [mergeBubbles_snd_const]
    norm_num

/-- C2: the radius bound is a frame invariant.  If every particle of the
collection has its radius in `[5, 50]` and every draw lies in `[0, 1)`, then
every particle of the collection at the end of a frame that completes
(survivors, merge products, split children, refill injections) has its
radius in `[5, 50]`. -/
theorem animate_radius_invariant (w h : ℝ) (bs : List Bubble) (g : Draws)
    (r : List Bubble × Draws)
    (hbs : ∀ b ∈ bs, 5 ≤ b.radius ∧ b.radius ≤ 50) (hg : g.Valid)
    (ha : animate w h bs g = Outcome.done r) :
    ∀ b ∈ r.1, 5 ≤ b.radius ∧ b.radius ≤ 50 := by
  obtain ⟨s, hs, rfl⟩ := animate_done ha
  obtain ⟨⟨h1, h2, h3⟩, -⟩ := scan_invariant w h
    (fun s => (∀ b ∈ s.bubbles, b.RadiusInRange) ∧ (∀ b ∈ s.newBubbles, b.RadiusInRange)
      ∧ s.g.Valid)
    (fun s s1 hP _ hi => iteration_radiusInRange hP hi) _ _ s
    ⟨hbs, by simp, hg⟩ hs
  apply refill_radiusInRange w h _ _ _ h3
  intro b hb
  rw [List.mem_append] at hb
  rcases hb with hb | hb
  · exact h1 b hb
  · exact h2 b hb

/-- Witness for C2: a frame on one particle of radius 10 with every draw
equal to 0.5 completes, and its end collection obeys the radius bound. -/
theorem animate_radius_invariant_witness :
    animate 1000 1000 [⟨Num.fin 100, Num.fin 100, 10, Num.fin 0.6, Num.fin 0.8⟩] (fun _ => 0.5)
      = Outcome.done (refill 1000 1000
          [Bubble.update 1000 1000 ⟨Num.fin 100, Num.fin 100, 10, Num.fin 0.6, Num.fin 0.8⟩]
          (Draws.tail fun _ => 0.5))
    ∧ ∀ b ∈ (refill 1000 1000
          [Bubble.update 1000 1000 ⟨Num.fin 100, Num.fin 100, 10, Num.fin 0.6, Num.fin 0.8⟩]
          (Draws.tail fun _ => 0.5)).1, 5 ≤ b.radius ∧ b.radius ≤ 50 :=
  ⟨animate_single _ _ _ _ (by norm_num),
   animate_radius_invariant 1000 1000
     [⟨Num.fin 100, Num.fin 100, 10, Num.fin 0.6, Num.fin 0.8⟩] (fun _ => 0.5) _
     (by simp; norm_num) (fun _ => by norm_num) (animate_single _ _ _ _ (by norm_num))⟩

/-- C3 as stated fails: a particle of velocity `(0.5, 0)`, speed exactly 0.5,
away from the walls has speed 0.495 after one `update()`, below the floor
0.5. -/
theorem update_speed_below_floor :
    (Bubble.update 1000 1000 ⟨Num.fin 100, Num.fin 100, 10, Num.fin 0.5, Num.fin 0⟩).speed
      = Num.fin 0.495 ∧ (0.495 : ℝ) < 0.5 := by
  constructor
  · rw [update_speed 1000 1000 0.5 0 _ rfl rfl (Or.inl (by norm_num))]
    congr 1
    have : Real.sqrt (0.5 * 0.5 + 0 * 0) = 0.5 := by
      rw [show (0.5 * 0.5 + 0 * 0 : ℝ) = 0.5 * 0.5 by norm_num]
      exact Real.sqrt_mul_self (by norm_num)
    rw [this]; norm_num
  · norm_num

/-- C3, amended: for every particle with real non-zero velocity, the speed
after one `update()` is a real number at least `0.99 * 0.5 = 0.495`: the
floor 0.5 is applied before the damping by 0.99. -/
theorem update_speed_ge_damped_floor (w h a c : ℝ) (b : Bubble)
    (hvx : b.vx = Num.fin a) (hvy : b.vy = Num.fin c) (hne : a ≠ 0 ∨ c ≠ 0) :
    ∃ s : ℝ, (b.update w h).speed = Num.fin s ∧ 0.99 * 0.5 ≤ s := by
  refine ⟨_, update_speed w h a c b hvx hvy hne, ?_⟩
  have := le_max_right (Real.sqrt (a * a + c * c)) 0.5
  nlinarith

/-- Witness for the amended C3: a particle of velocity `(0.1, 0)`. -/
theorem update_speed_ge_damped_floor_witness :
    ((0.1 : ℝ) ≠ 0 ∨ (0 : ℝ) ≠ 0)
    ∧ ∃ s : ℝ, (Bubble.update 1000 1000
        ⟨Num.fin 100, Num.fin 100, 10, Num.fin 0.1, Num.fin 0⟩).speed = Num.fin s
      ∧ 0.99 * 0.5 ≤ s :=
  ⟨Or.inl (by norm_num),
   update_speed_ge_damped_floor 1000 1000 0.1 0
     ⟨Num.fin 100, Num.fin 100, 10, Num.fin 0.1, Num.fin 0⟩ rfl rfl (Or.inl (by norm_num))⟩

theorem refill_length_eq (w h : ℝ) (bs : List Bubble) (g : Draws) :
    (refill w h bs g).1.length = max bs.length 10 := by
  induction bs, g using refill.induct w h with
  | case1 bs g hlt b ih =>
    rw [refill, if_pos hlt, ih]
    simp only [List.length_append, List.length_singleton]
    omega
  | case2 bs g hge =>
    rw [refill, if_neg hge]
    simp only
    omega

/-- C4: the frame never exhausts its fuel (its loops terminate), and a frame
that completes, from any collection and any draws, ends with at least 10
particles: the refill loop stops with exactly `max n 10` particles when it
starts from `n`. -/
theorem animate_population_floor (w h : ℝ) (bs : List Bubble) (g : Draws) :
    animate w h bs g ≠ Outcome.outOfFuel
    ∧ (∀ r, animate w h bs g = Outcome.done r → 10 ≤ r.1.length)
    ∧ ∀ (cs : List Bubble) (g1 : Draws), (refill w h cs g1).1.length = max cs.length 10 := by
  refine ⟨?_, ?_, fun cs g1 => refill_length_eq w h cs g1⟩
  · intro ha
    unfold animate at ha
    split at ha
    · cases ha
    · cases ha
    · next hs =>
      exact scan_fuel w h _ _ (by omega) (by simp) hs
  · intro r hr
    obtain ⟨s, -, rfl⟩ := animate_done hr
    exact refill_length w h _ _

/-- Witness for C4: the frame on the empty collection completes and ends
with at least 10 particles. -/
theorem animate_population_floor_witness :
    animate 1000 1000 [] (fun _ => 0.5) = Outcome.done (refill 1000 1000 [] (fun _ => 0.5))
    ∧ 10 ≤ (refill 1000 1000 [] (fun _ => 0.5)).1.length :=
  ⟨animate_nil _ _ _,
   (animate_population_floor 1000 1000 [] (fun _ => 0.5)).2.1 _ (animate_nil _ _ _)⟩

/-- C5: for a particle of radius `r > 0` with real position and velocity on
a surface with `2 r ≤ w` and `2 r ≤ h`, after `update()` the centre is real
and `r ≤ x ≤ w - r`, `r ≤ y ≤ h - r` (the radius is unchanged). -/
theorem update_position_in_range (w h px py a c : ℝ) (b : Bubble)
    (hx : b.x = Num.fin px) (hy : b.y = Num.fin py)
    (hvx : b.vx = Num.fin a) (hvy : b.vy = Num.fin c)
    (_hr : 0 < b.radius) (hw : 2 * b.radius ≤ w) (hh : 2 * b.radius ≤ h) :
    ∃ x1 y1 : ℝ, (b.update w h).x = Num.fin x1 ∧ (b.update w h).y = Num.fin y1
      ∧ (b.update w h).radius = b.radius
      ∧ b.radius ≤ x1 ∧ x1 ≤ w - b.radius ∧ b.radius ≤ y1 ∧ y1 ≤ h - b.radius := by
  obtain ⟨x1, hx1, h1, h2⟩ := reflect_snd_range (px + a) a b.radius w hw
  obtain ⟨y1, hy1, h3, h4⟩ := reflect_snd_range (py + c) c b.radius h hh
  refine ⟨x1, y1, ?_, ?_, rfl, h1, h2, h3, h4⟩
  · rw [update_x, hx, hvx]; exact hx1
  · rw [update_y, hy, hvy]; exact hy1

/-- Witness for C5: a particle of radius 10 at `(9, 995)` with velocity
`(-1, 0.5)` on a 1000 x 1000 surface. -/
theorem update_position_in_range_witness :
    (0 : ℝ) < 10 ∧ (2 * 10 : ℝ) ≤ 1000
    ∧ ∃ x1 y1 : ℝ,
      (Bubble.update 1000 1000 ⟨Num.fin 9, Num.fin 995, 10, Num.fin (-1), Num.fin 0.5⟩).x
        = Num.fin x1
      ∧ (Bubble.update 1000 1000 ⟨Num.fin 9, Num.fin 995, 10, Num.fin (-1), Num.fin 0.5⟩).y
        = Num.fin y1
      ∧ (Bubble.update 1000 1000 ⟨Num.fin 9, Num.fin 995, 10, Num.fin (-1), Num.fin 0.5⟩).radius
        = 10
      ∧ 10 ≤ x1 ∧ x1 ≤ 1000 - 10 ∧ 10 ≤ y1 ∧ y1 ≤ 1000 - 10 :=
  ⟨by norm_num, by norm_num,
   update_position_in_range 1000 1000 9 995 (-1) 0.5
     ⟨Num.fin 9, Num.fin 995, 10, Num.fin (-1), Num.fin 0.5⟩ rfl rfl rfl rfl
     (by norm_num) (by norm_num) (by norm_num)⟩

/-- C6 as stated fails, for each kind of particle the frame creates and for
a survivor on a surface smaller than its diameter.  In each of the four
frames below the end collection holds a particle whose centre is not inside
`[radius, w - radius] x [radius, h - radius]`:
(1) a refill injection placed at `x = 0` by a draw equal to 0;
(2) the merge product of two particles of radius 30 at `x = 30.6` and `x = 31`,
of radius `sqrt 1800 > 30.8`;
(3) a child of a particle of radius 40 at `x = 40.6`, split along angle 0;
(4) an updated particle of radius 10 on a 10 x 10 surface. -/
theorem animate_created_not_inBounds :
    (∃ r, animate 1000 1000 [] (fun _ => 0) = Outcome.done r
      ∧ ∃ b ∈ r.1, ¬ b.InBounds 1000 1000)
    ∧ (∃ r, animate 1000 1000
          [⟨Num.fin 30, Num.fin 500, 30, Num.fin 0.6, Num.fin 0.8⟩,
           ⟨Num.fin 31, Num.fin 500, 30, Num.fin 0.6, Num.fin 0.8⟩] (fun _ => 0.5)
          = Outcome.done r
      ∧ ∃ b ∈ r.1, ¬ b.InBounds 1000 1000)
    ∧ (∃ r, animate 1000 1000
          [⟨Num.fin 40, Num.fin 500, 40, Num.fin 0.6, Num.fin 0.8⟩] (fun _ => 0)
          = Outcome.done r
      ∧ ∃ b ∈ r.1, ¬ b.InBounds 1000 1000)
    ∧ (∃ r, animate 10 10
          [⟨Num.fin 5, Num.fin 5, 10, Num.fin 0.6, Num.fin 0.8⟩] (fun _ => 0.5)
          = Outcome.done r
      ∧ ∃ b ∈ r.1, ¬ b.InBounds 10 10) := by
  refine ⟨?_, ?_, ?_, ?_⟩
  · refine ⟨_, animate_nil _ _ _, _, refill_nil_mem _ _ _, ?_⟩
    apply not_inBounds_of_x_lt _ _ _ (0 * 1000) rfl
    simp only [Bubble.new, orRandom, Draws.tail]
    norm_num
  · obtain ⟨ex, ey⟩ := update_pos_free 1000 1000 30 500 0.6 0.8
      ⟨Num.fin 30, Num.fin 500, 30, Num.fin 0.6, Num.fin 0.8⟩ rfl rfl rfl rfl
      (by norm_num) (by norm_num) (by norm_num) (by norm_num)
    have ho : overlap (Bubble.update 1000 1000
        ⟨Num.fin 30, Num.fin 500, 30, Num.fin 0.6, Num.fin 0.8⟩)
        ⟨Num.fin 31, Num.fin 500, 30, Num.fin 0.6, Num.fin 0.8⟩ := by
      rw [overlap_fin _ _ _ _ 31 500 ex ey rfl rfl, update_radius]
      have : ((30 : ℝ) + 0.6 - 31) * (30 + 0.6 - 31) + (500 + 0.8 - 500) * (500 + 0.8 - 500)
          = 0.8 := by norm_num
      rw [this, Real.sqrt_lt' (by norm_num)]
      norm_num
    refine ⟨_, animate_pair_merge _ _ _ _ _ ho ?_, _,
      refill_mem_of_mem _ _ _ (List.mem_singleton.mpr rfl), ?_⟩
    · rw [mergeBubbles_snd_const]; norm_num
    · apply not_inBounds_of_x_lt _ _ _ ((30 + 0.6 + 31) / 2)
      · rw [mergeBubbles_x, ex]; simp
      · rw [mergeBubbles_radius_eq _ _ _ (by rw [update_radius]; norm_num), update_radius]
        apply lt_min
        · apply Real.lt_sqrt_of_sq_lt; norm_num
        · norm_num
  · obtain ⟨ex, ey⟩ := update_pos_free 1000 1000 40 500 0.6 0.8
      ⟨Num.fin 40, Num.fin 500, 40, Num.fin 0.6, Num.fin 0.8⟩ rfl rfl rfl rfl
      (by norm_num) (by norm_num) (by norm_num) (by norm_num)
    obtain ⟨c1, c2, hl, -, hr2, -, -, hx2, -⟩ := splitBubble_children
      (Bubble.update 1000 1000 ⟨Num.fin 40, Num.fin 500, 40, Num.fin 0.6, Num.fin 0.8⟩)
      (Draws.tail fun _ => 0)
    refine ⟨_, animate_single_split _ _ _ _ (by norm_num) ?_, c2,
      refill_mem_of_mem _ _ _ (by rw [hl]; simp), ?_⟩
    · rw [update_radius]; norm_num [Bubble.minRadius]
    · rw [update_radius] at hr2 hx2
      rw [ex] at hx2
      have hsq : Real.sqrt 2 ≤ 1.5 := by
        rw [Real.sqrt_le_left (by norm_num)]; norm_num
      have hsq0 : 0 < Real.sqrt 2 := by positivity
      have hbig : (25 : ℝ) ≤ 40 / Real.sqrt 2 := by
        rw [le_div_iff₀ hsq0]; linarith
      have hmax : max ((40 : ℝ) / Real.sqrt 2) 5 = 40 / Real.sqrt 2 :=
        max_eq_left (by linarith)
      apply not_inBounds_of_x_lt _ _ _ (40 + 0.6 - 1 * (40 / Real.sqrt 2))
      · rw [hx2]; simp [Draws.tail, hmax]
      · rw [hr2, hmax]; linarith
  · refine ⟨_, animate_single _ _ _ _ (by norm_num), _,
      refill_mem_of_mem _ _ _ (List.mem_singleton.mpr rfl), ?_⟩
    apply not_inBounds_of_x_gt _ _ _ 10
    · rw [update_x, Num.fin_add, reflect_snd_fin]
      norm_num
    · rw [update_radius]; norm_num

/-- C6, amended: at the end of a frame that completes, started from particles
with real positions and velocities on a surface at least as wide and as high
as each particle's diameter, the end collection is the survivors of the scan
(`s.bubbles`) followed by the merge products and split children
(`s.newBubbles`) and the refill injections, and every survivor has its centre
inside `[radius, w - radius] x [radius, h - radius]`. -/
theorem animate_survivors_inBounds (w h : ℝ) (bs : List Bubble) (g : Draws) (r : List Bubble × Draws)
    (hdef : ∀ b ∈ bs, b.Defined)
    (hsize : ∀ b ∈ bs, 2 * b.radius ≤ w ∧ 2 * b.radius ≤ h)
    (ha : animate w h bs g = Outcome.done r) :
    ∃ s injected,
      scan w h (bs.length + 1) { bubbles := bs, newBubbles := [], i := 0, g := g }
        = Outcome.done s
      ∧ r.1 = s.bubbles ++ s.newBubbles ++ injected
      ∧ ∀ b ∈ s.bubbles, b.InBounds w h := by
  obtain ⟨s, hs, rfl⟩ := animate_done ha
  obtain ⟨inj, hinj⟩ := refill_append w h (s.bubbles ++ s.newBubbles) s.g
  refine ⟨s, inj, hs, hinj, ?_⟩
  obtain ⟨⟨m, hm, hL⟩, hend⟩ := scan_invariant w h
    (fun s => ∃ m : ℕ, s.i = m ∧ ∀ k b, s.bubbles[k]? = some b →
      (k < m → b.InBounds w h) ∧
      (m ≤ k → b.Defined ∧ 2 * b.radius ≤ w ∧ 2 * b.radius ≤ h))
    (fun s s1 hP _ hi => iteration_split
      (fun b hb => update_inBounds w h b hb.1 hb.2.1 hb.2.2) hP hi) _ _ s
    ⟨0, rfl, fun k b hk => ⟨fun hlt => by omega, fun _ =>
      ⟨hdef b (List.getElem?_mem hk), hsize b (List.getElem?_mem hk)⟩⟩⟩ hs
  intro b hb
  obtain ⟨k, hk⟩ := List.mem_iff_getElem?.mp hb
  have hkl : k < s.bubbles.length := (List.getElem?_eq_some_iff.mp hk).1
  refine (hL k b hk).1 ?_
  rw [hm] at hend
  omega

/-- Witness for the amended C6: a frame on one particle that touches the
left wall. -/
theorem animate_survivors_inBounds_witness :
    animate 1000 1000 [⟨Num.fin 9, Num.fin 995, 10, Num.fin (-1), Num.fin 0.5⟩] (fun _ => 0.5)
      = Outcome.done (refill 1000 1000
          [Bubble.update 1000 1000 ⟨Num.fin 9, Num.fin 995, 10, Num.fin (-1), Num.fin 0.5⟩]
          (Draws.tail fun _ => 0.5))
    ∧ ∃ s injected,
      scan 1000 1000 2
          { bubbles := [⟨Num.fin 9, Num.fin 995, 10, Num.fin (-1), Num.fin 0.5⟩],
            newBubbles := [], i := 0, g := fun _ => 0.5 }
        = Outcome.done s
      ∧ (refill 1000 1000
          [Bubble.update 1000 1000 ⟨Num.fin 9, Num.fin 995, 10, Num.fin (-1), Num.fin 0.5⟩]
          (Draws.tail fun _ => 0.5)).1 = s.bubbles ++ s.newBubbles ++ injected
      ∧ ∀ b ∈ s.bubbles, b.InBounds 1000 1000 :=
  ⟨animate_single _ _ _ _ (by norm_num),
   animate_survivors_inBounds 1000 1000
     [⟨Num.fin 9, Num.fin 995, 10, Num.fin (-1), Num.fin 0.5⟩] (fun _ => 0.5) _
     (by simp [Bubble.Defined]) (by simp; norm_num) (animate_single _ _ _ _ (by norm_num))⟩

/-- C7, evaluated at a failing input.  Two particles of radius 10 with
x-velocities 0.5 and -0.5: the radius-weighted average is 0, which the
constructor's `vx || ...` treats as missing, so the merged x-velocity is
`(0.75 - 0.5) * 2 = 0.5`, taken from the next draw 0.75, and not 0. -/
theorem mergeBubbles_zero_velocity_redrawn :
    (mergeBubbles ⟨Num.fin 100, Num.fin 100, 10, Num.fin 0.5, Num.fin 0.25⟩
        ⟨Num.fin 105, Num.fin 100, 10, Num.fin (-0.5), Num.fin 0.25⟩ (fun _ => 0.75)).1.vx
      = Num.fin 0.5
    ∧ ((0.5 : ℝ) * 10 + (-0.5) * 10) / (10 + 10) = 0 := by
  constructor
  · simp only [mergeBubbles, Bubble.new, orRandom]
    split_ifs <;> simp [Draws.tail] <;> norm_num
  · norm_num

/-- C8: for particles of positive radii `r1`, `r2`, `mergeBubbles` returns a
particle of radius `min (sqrt (r1^2 + r2^2)) 50`; it is at most
`sqrt (r1^2 + r2^2)`, it equals `maxRadius = 50` exactly when
`sqrt (r1^2 + r2^2) ≥ 50`, and for radii 10 and 10 at the same centre it is
`sqrt 200`. -/
theorem mergeBubbles_radius (b1 b2 : Bubble) (g : Draws)
    (h1 : 0 < b1.radius) (_h2 : 0 < b2.radius) :
    (mergeBubbles b1 b2 g).1.radius = min (Real.sqrt (b1.radius ^ 2 + b2.radius ^ 2)) 50
    ∧ (mergeBubbles b1 b2 g).1.radius ≤ Real.sqrt (b1.radius ^ 2 + b2.radius ^ 2)
    ∧ ((mergeBubbles b1 b2 g).1.radius = b1.maxRadius ↔
        50 ≤ Real.sqrt (b1.radius ^ 2 + b2.radius ^ 2))
    ∧ (b1.radius = 10 → b2.radius = 10 → b1.x = b2.x → b1.y = b2.y →
        (mergeBubbles b1 b2 g).1.radius = Real.sqrt 200) := by
  have he := mergeBubbles_radius_eq b1 b2 g h1
  refine ⟨he, ?_, ?_, ?_⟩
  · rw [he]; exact min_le_left _ _
  · rw [he]; simp [Bubble.maxRadius]
  · intro e1 e2 _ _
    rw [he, e1, e2]
    have : (10:ℝ)^2 + 10^2 = 200 := by norm_num
    rw [this]
    apply min_eq_left
    rw [Real.sqrt_le_left (by norm_num)]
    norm_num

/-- Witness for C8: two particles of radius 10 at the same centre merge into
one of radius `sqrt 200`. -/
theorem mergeBubbles_radius_witness :
    (0 : ℝ) < 10
    ∧ (mergeBubbles ⟨Num.fin 100, Num.fin 100, 10, Num.fin 0.5, Num.fin 0.25⟩
        ⟨Num.fin 100, Num.fin 100, 10, Num.fin 0.25, Num.fin 0.5⟩ (fun _ => 0.5)).1.radius
      = Real.sqrt 200 :=
  ⟨by norm_num,
   (mergeBubbles_radius ⟨Num.fin 100, Num.fin 100, 10, Num.fin 0.5, Num.fin 0.25⟩
      ⟨Num.fin 100, Num.fin 100, 10, Num.fin 0.25, Num.fin 0.5⟩ (fun _ => 0.5)
      (by norm_num) (by norm_num)).2.2.2 rfl rfl rfl rfl⟩

/-- C9: for a particle of positive radius `r` and any split angle (any
draw), `splitBubble` returns exactly two children, both of radius
`max (r / sqrt 2) 5`; this is at least `minRadius = 5`, equals `r / sqrt 2`
when `r / sqrt 2 > 5`, and for `r = 40` it is `40 / sqrt 2`. -/
theorem splitBubble_radius (b : Bubble) (g : Draws) (_hr : 0 < b.radius) :
    ∃ c1 c2 : Bubble, (splitBubble b g).1 = [c1, c2]
      ∧ c1.radius = max (b.radius / Real.sqrt 2) 5
      ∧ c2.radius = max (b.radius / Real.sqrt 2) 5
      ∧ b.minRadius ≤ c1.radius ∧ b.minRadius ≤ c2.radius
      ∧ (5 < b.radius / Real.sqrt 2 →
          c1.radius = b.radius / Real.sqrt 2 ∧ c2.radius = b.radius / Real.sqrt 2)
      ∧ (b.radius = 40 →
          c1.radius = 40 / Real.sqrt 2 ∧ c2.radius = 40 / Real.sqrt 2) := by
  obtain ⟨c1, c2, hl, h1, h2⟩ := splitBubble_fst b g
  refine ⟨c1, c2, hl, h1, h2, ?_, ?_, ?_, ?_⟩
  · rw [h1]; exact le_max_right _ _
  · rw [h2]; exact le_max_right _ _
  · intro h
    rw [h1, h2, max_eq_left h.le]
    exact ⟨rfl, rfl⟩
  · intro h
    have h5 : (5 : ℝ) ≤ 40 / Real.sqrt 2 := by
      rw [le_div_iff₀ (by positivity)]
      have : Real.sqrt 2 ≤ 2 := by
        rw [Real.sqrt_le_left (by norm_num)]; norm_num
      linarith
    rw [h1, h2, h, max_eq_left h5]
    exact ⟨rfl, rfl⟩

/-- Witness for C9: a particle of radius 40. -/
theorem splitBubble_radius_witness :
    (0 : ℝ) < 40
    ∧ ∃ c1 c2 : Bubble,
      (splitBubble ⟨Num.fin 100, Num.fin 100, 40, Num.fin 0.6, Num.fin 0.8⟩
        (fun _ => 0.25)).1 = [c1, c2]
      ∧ c1.radius = 40 / Real.sqrt 2 ∧ c2.radius = 40 / Real.sqrt 2 := by
  refine ⟨by norm_num, ?_⟩
  obtain ⟨c1, c2, hl, -, -, -, -, -, h40⟩ :=
    splitBubble_radius ⟨Num.fin 100, Num.fin 100, 40, Num.fin 0.6, Num.fin 0.8⟩
      (fun _ => 0.25) (by norm_num)
  exact ⟨c1, c2, hl, h40 rfl⟩

/-- C10: for a particle with real x-position and x-velocity whose left edge
is past the left boundary after the position step (`x + vx - radius < 0`),
after `update()` the x-position is exactly `radius`, for every surface width,
and the sign of the x-velocity is flipped: positive if it was negative,
negative if it was positive. -/
theorem update_left_wall (w h px a : ℝ) (b : Bubble)
    (hx : b.x = Num.fin px) (hvx : b.vx = Num.fin a)
    (hleft : px + a - b.radius < 0) :
    (b.update w h).x = Num.fin b.radius
    ∧ (a < 0 → ∃ a1 : ℝ, (b.update w h).vx = Num.fin a1 ∧ 0 < a1)
    ∧ (0 < a → ∃ a1 : ℝ, (b.update w h).vx = Num.fin a1 ∧ a1 < 0) := by
  have hr := reflectedVx_of_left w px a b hx hleft
  refine ⟨?_, ?_, ?_⟩
  · rw [update_x, hx, hvx, Num.fin_add, reflect_snd_fin, if_pos (Or.inl hleft)]
    congr 1
    apply max_eq_left
    exact le_trans (min_le_right _ _) (by linarith)
  · intro ha
    obtain ⟨k, hk, he⟩ := update_vx_sign w h a b hvx ha.ne
    refine ⟨_, he, ?_⟩
    rw [hr]; nlinarith
  · intro ha
    obtain ⟨k, hk, he⟩ := update_vx_sign w h a b hvx ha.ne.symm
    refine ⟨_, he, ?_⟩
    rw [hr]; nlinarith

/-- Witness for C10: the scenario of the spec, a particle of radius 10 at
`x = radius - 1 = 9` moving left with x-velocity -1. -/
theorem update_left_wall_witness :
    ((9 : ℝ) + (-1) - 10 < 0)
    ∧ (Bubble.update 1000 1000 ⟨Num.fin 9, Num.fin 500, 10, Num.fin (-1), Num.fin 0.5⟩).x
        = Num.fin 10
    ∧ ∃ a1 : ℝ,
      (Bubble.update 1000 1000 ⟨Num.fin 9, Num.fin 500, 10, Num.fin (-1), Num.fin 0.5⟩).vx
        = Num.fin a1 ∧ 0 < a1 :=
  ⟨by norm_num,
   (update_left_wall 1000 1000 9 (-1)
      ⟨Num.fin 9, Num.fin 500, 10, Num.fin (-1), Num.fin 0.5⟩ rfl rfl (by norm_num)).1,
   (update_left_wall 1000 1000 9 (-1)
      ⟨Num.fin 9, Num.fin 500, 10, Num.fin (-1), Num.fin 0.5⟩ rfl rfl (by norm_num)).2.1
      (by norm_num)⟩

/-! ## Further facts on `update` and `splitBubble` -/

theorem reflectedVx_of_free (w px a : ℝ) (b : Bubble) (hx : b.x = Num.fin px)
    (h1 : 0 ≤ px + a - b.radius) (h2 : px + a + b.radius ≤ w) : reflectedVx w b a = a := by
  unfold reflectedVx
  rw [hx]
  simp only [Num.fin_add, Num.fin_sub, Num.lt_fin, Num.gt_fin]
  rw [if_neg]
  push_neg
  exact ⟨h1, h2⟩

theorem reflectedVy_of_free (h py c : ℝ) (b : Bubble) (hy : b.y = Num.fin py)
    (h1 : 0 ≤ py + c - b.radius) (h2 : py + c + b.radius ≤ h) : reflectedVy h b c = c := by
  unfold reflectedVy
  rw [hy]
  simp only [Num.fin_add, Num.fin_sub, Num.lt_fin, Num.gt_fin]
  rw [if_neg]
  push_neg
  exact ⟨h1, h2⟩

/-- After `update`, a real non-zero velocity of speed `s` is again real and
non-zero, of speed `0.99 * max s 0.5`. -/
theorem update_velocity_real (w h a c : ℝ) (b : Bubble)
    (hvx : b.vx = Num.fin a) (hvy : b.vy = Num.fin c) (hne : a ≠ 0 ∨ c ≠ 0) :
    ∃ a1 c1 : ℝ, (b.update w h).vx = Num.fin a1 ∧ (b.update w h).vy = Num.fin c1
      ∧ (a1 ≠ 0 ∨ c1 ≠ 0)
      ∧ Real.sqrt (a1 * a1 + c1 * c1) = 0.99 * max (Real.sqrt (a * a + c * c)) 0.5 := by
  obtain ⟨a1, h1⟩ : ∃ a1, (b.update w h).vx = Num.fin a1 :=
    ⟨_, (update_velocity w h a c b hvx hvy hne).1⟩
  obtain ⟨c1, h2⟩ : ∃ c1, (b.update w h).vy = Num.fin c1 :=
    ⟨_, (update_velocity w h a c b hvx hvy hne).2⟩
  have hsp := update_speed w h a c b hvx hvy hne
  unfold Bubble.speed at hsp
  rw [h1, h2] at hsp
  simp only [Num.sq_fin, Num.fin_add, Num.sqrt_fin] at hsp
  rw [if_neg (not_lt.mpr (add_nonneg (mul_self_nonneg a1) (mul_self_nonneg c1)))] at hsp
  simp only [Num.fin.injEq] at hsp
  refine ⟨a1, c1, h1, h2, ?_, hsp⟩
  by_contra hcon
  push_neg at hcon
  rw [hcon.1, hcon.2] at hsp
  have := le_max_right (Real.sqrt (a * a + c * c)) 0.5
  simp only [mul_zero, add_zero, Real.sqrt_zero] at hsp
  linarith

/-- The speed after `n` updates, by recursion on `n`. -/
theorem update_iterate_real (w h a c : ℝ) (b : Bubble)
    (hvx : b.vx = Num.fin a) (hvy : b.vy = Num.fin c) (hne : a ≠ 0 ∨ c ≠ 0) (n : ℕ) :
    ∃ a1 c1 : ℝ, ((Bubble.update w h)^[n + 1] b).vx = Num.fin a1
      ∧ ((Bubble.update w h)^[n + 1] b).vy = Num.fin c1
      ∧ (a1 ≠ 0 ∨ c1 ≠ 0)
      ∧ Real.sqrt (a1 * a1 + c1 * c1)
          = max (0.99 ^ (n + 1) * Real.sqrt (a * a + c * c)) 0.495 := by
  induction n with
  | zero =>
    obtain ⟨a1, c1, e1, e2, hn, hs⟩ := update_velocity_real w h a c b hvx hvy hne
    refine ⟨a1, c1, e1, e2, hn, ?_⟩
    rw [hs, mul_max_of_nonneg _ _ (by norm_num)]
    norm_num
  | succ n ih =>
    obtain ⟨a1, c1, e1, e2, hn, hs⟩ := ih
    obtain ⟨a2, c2, f1, f2, hn2, hs2⟩ := update_velocity_real w h a1 c1 _ e1 e2 hn
    rw [Function.iterate_succ_apply']
    refine ⟨a2, c2, f1, f2, hn2, ?_⟩
    rw [hs2, hs, max_assoc, max_eq_right (show (0.495 : ℝ) ≤ 0.5 by norm_num),
      mul_max_of_nonneg _ _ (by norm_num)]
    congr 1
    · ring
    · norm_num

theorem sqrt_two_mul_self : Real.sqrt 2 * Real.sqrt 2 = 2 :=
  Real.mul_self_sqrt (by norm_num)

theorem sqrt_quarter : Real.sqrt (0.5 * 0.5 + 0 * 0) = 0.5 := by
  rw [show (0.5 * 0.5 + 0 * 0 : ℝ) = 0.5 * 0.5 by norm_num]
  exact Real.sqrt_mul_self (by norm_num)

/-- The arguments `splitBubble` passes to the constructor for the velocities
of the two children of a particle with real velocity `(a, c)`. -/
theorem splitBubble_velocity (b : Bubble) (g : Draws) (a c : ℝ)
    (hvx : b.vx = Num.fin a) (hvy : b.vy = Num.fin c) :
    ∃ c1 c2 : Bubble, ∃ g1 g2 g3 : Draws, (splitBubble b g).1 = [c1, c2]
      ∧ c1.vx = Num.fin (orRandom
          (Num.fin (a + Real.cos (g 0 * Real.pi * 2) * Real.sqrt (a * a + c * c)))
          (fun d => (d - 0.5) * 2) g.tail).1
      ∧ g1 = (orRandom
          (Num.fin (a + Real.cos (g 0 * Real.pi * 2) * Real.sqrt (a * a + c * c)))
          (fun d => (d - 0.5) * 2) g.tail).2
      ∧ c1.vy = Num.fin (orRandom
          (Num.fin (c + Real.sin (g 0 * Real.pi * 2) * Real.sqrt (a * a + c * c)))
          (fun d => (d - 0.5) * 2) g1).1
      ∧ g2 = (orRandom
          (Num.fin (c + Real.sin (g 0 * Real.pi * 2) * Real.sqrt (a * a + c * c)))
          (fun d => (d - 0.5) * 2) g1).2
      ∧ c2.vx = Num.fin (orRandom
          (Num.fin (a - Real.cos (g 0 * Real.pi * 2) * Real.sqrt (a * a + c * c)))
          (fun d => (d - 0.5) * 2) g2).1
      ∧ g3 = (orRandom
          (Num.fin (a - Real.cos (g 0 * Real.pi * 2) * Real.sqrt (a * a + c * c)))
          (fun d => (d - 0.5) * 2) g2).2
      ∧ c2.vy = Num.fin (orRandom
          (Num.fin (c - Real.sin (g 0 * Real.pi * 2) * Real.sqrt (a * a + c * c)))
          (fun d => (d - 0.5) * 2) g3).1 := by
  have hpos := splitRadius_pos b.radius
  have hnn : ¬ (a * a + c * c < 0) :=
    not_lt.mpr (add_nonneg (mul_self_nonneg a) (mul_self_nonneg c))
  refine ⟨_, _, _, _, _, rfl, ?_, rfl, ?_, rfl, ?_, rfl, ?_⟩
  all_goals
    simp only [Bubble.new, Bubble.minRadius, hvx, hvy, Num.sq_fin, Num.fin_add, Num.fin_sub,
      Num.fin_mul, Num.sqrt_fin, if_neg hnn]
    simp only [fun g0 => orRandom_fin_of_ne _ (fun d => d * 20 + 10) g0 hpos.ne.symm]

/-! ## Quiet frames -/

theorem findCollision_none {bi : Bubble} :
    ∀ {rest : List Bubble} {j : ℕ}, (∀ bj ∈ rest, ¬ overlap bi bj) →
      findCollision bi rest j = none := by
  intro rest
  induction rest with
  | nil => intro j _; rfl
  | cons b rest ih =>
    intro j hno
    unfold findCollision
    rw [if_neg (hno b (List.mem_cons_self _ _))]
    exact ih (fun bj hbj => hno bj (List.mem_cons_of_mem _ hbj))

theorem getAt_append_length (pre post : List Bubble) (b : Bubble) :
    getAt (pre ++ b :: post) (pre.length : ℤ) = some b := by
  unfold getAt
  rw [if_neg (by omega)]
  simp only [Int.toNat_ofNat]
  rw [List.getElem?_append_right (le_refl _)]
  simp

theorem getAt_nat (bs : List Bubble) (n : ℕ) : getAt bs (n : ℤ) = bs[n]? := by
  unfold getAt
  rw [if_neg (by omega)]
  simp

/-- One pass of the loop body over an untouched particle that neither merges
nor splits. -/
theorem iteration_quiet (w h : ℝ) (pre post nb : List Bubble) (b : Bubble) (g : Draws)
    (hno : ∀ bj ∈ post, ¬ overlap (b.update w h) bj) (hd : ¬ g 0 < 0.002) :
    iteration w h { bubbles := pre ++ b :: post, newBubbles := nb, i := pre.length, g := g }
      = some { bubbles := pre ++ b.update w h :: post, newBubbles := nb,
               i := pre.length + 1, g := g.tail } := by
  have hU : updateStep w h
      { bubbles := pre ++ b :: post, newBubbles := nb, i := pre.length, g := g }
      = some { bubbles := pre ++ b.update w h :: post, newBubbles := nb,
               i := pre.length, g := g } := by
    simp [updateStep, getAt_append_length]
  have hM : mergeStep
      { bubbles := pre ++ b.update w h :: post, newBubbles := nb, i := pre.length, g := g }
      = some { bubbles := pre ++ b.update w h :: post, newBubbles := nb,
               i := pre.length, g := g } := by
    have hnone : findCollision (b.update w h) post (pre.length + 1) = none :=
      findCollision_none hno
    simp [mergeStep, getAt_append_length, hnone]
  have hS : splitStep
      { bubbles := pre ++ b.update w h :: post, newBubbles := nb, i := pre.length, g := g }
      = some { bubbles := pre ++ b.update w h :: post, newBubbles := nb,
               i := pre.length, g := g.tail } := by
    simp [splitStep, hd]
  simp [iteration, hU, hM, hS]

theorem scan_quiet (w h : ℝ) :
    ∀ (post pre nb : List Bubble) (g : Draws) (fuel : ℕ), post.length < fuel →
      (∀ (i j : ℕ) (bi bj : Bubble), i < j → post[i]? = some bi → post[j]? = some bj →
        ¬ overlap (bi.update w h) bj) →
      (∀ n : ℕ, n < post.length → ¬ g n < 0.002) →
      scan w h fuel { bubbles := pre ++ post, newBubbles := nb, i := pre.length, g := g }
        = Outcome.done { bubbles := pre ++ post.map (Bubble.update w h), newBubbles := nb,
                         i := (pre.length + post.length : ℕ),
                         g := fun n => g (n + post.length) } := by
  intro post
  induction post with
  | nil =>
    intro pre nb g fuel hf _ _
    obtain ⟨fuel, rfl⟩ : ∃ k, fuel = k + 1 := ⟨fuel - 1, by simp at hf; omega⟩
    simp [scan]
  | cons b post ih =>
    intro pre nb g fuel hf hpairs hdraws
    obtain ⟨fuel, rfl⟩ : ∃ k, fuel = k + 1 := ⟨fuel - 1, by omega⟩
    have hno : ∀ bj ∈ post, ¬ overlap (b.update w h) bj := by
      intro bj hbj
      obtain ⟨k, hk⟩ := List.mem_iff_getElem?.mp hbj
      exact hpairs 0 (k + 1) b bj (by omega) (by simp) (by simpa using hk)
    have hd : ¬ g 0 < 0.002 := hdraws 0 (by simp)
    have hlt : ((pre.length : ℕ) : ℤ) < ((pre ++ b :: post).length : ℕ) := by
      simp only [List.length_append, List.length_cons]; omega
    unfold scan
    simp only
    rw [if_pos hlt, iteration_quiet w h pre post nb b g hno hd]
    simp only
    have hrec := ih (pre ++ [b.update w h]) nb g.tail fuel
      (by simp only [List.length_cons] at hf; omega)
      (fun i j bi bj hij hi hj =>
        hpairs (i + 1) (j + 1) bi bj (by omega) (by simpa using hi) (by simpa using hj))
      (fun n hn => hdraws (n + 1) (by simp only [List.length_cons]; omega))
    simp only [List.append_assoc, List.singleton_append, List.length_append,
      List.length_singleton] at hrec
    have hidx : ((pre.length + 1 : ℕ) : ℤ) = (pre.length : ℤ) + 1 := by push_cast; ring
    rw [hidx] at hrec
    rw [hrec]
    congr 2
    simp only [List.length_cons]; omega

/-- A quiet frame on at least 10 particles updates every particle once and
consumes one draw for each. -/
theorem quiet_frame_eq (w h : ℝ) (bs : List Bubble) (g : Draws)
    (hlen : 10 ≤ bs.length) (hq : Quiet w h bs g) :
    animate w h bs g
      = Outcome.done (bs.map (Bubble.update w h), fun n => g (n + bs.length)) := by
  have hs := scan_quiet w h bs [] [] g (bs.length + 1) (by omega) hq.1 hq.2
  simp only [List.nil_append, List.length_nil, Nat.cast_zero, Nat.zero_add] at hs
  unfold animate
  rw [hs]
  simp only [List.append_nil]
  rw [refill, if_neg (by simp only [List.length_map]; omega)]

theorem frames_quiet (w h : ℝ) :
    ∀ (N : ℕ) (bs : List Bubble) (g : Draws), 10 ≤ bs.length → QuietRun w h N bs g →
      ∃ r, frames w h N bs g = Outcome.done r ∧ r.1.length = bs.length := by
  intro N
  induction N with
  | zero => intro bs g _ _; exact ⟨(bs, g), rfl, rfl⟩
  | succ N ih =>
    intro bs g hlen hq
    obtain ⟨hq1, hq2⟩ := hq
    have he := quiet_frame_eq w h bs g hlen hq1
    obtain ⟨r, hr, hl⟩ := ih (bs.map (Bubble.update w h)) (fun n => g (n + bs.length))
      (by simpa using hlen) (hq2 _ he)
    refine ⟨r, ?_, by simpa using hl⟩
    unfold frames
    rw [he]
    exact hr

/-- Ten particles of radius 10 in a row, 100 apart, all with velocity
`(0.6, 0.8)`, make a quiet frame on a 2000 x 1000 surface when every draw is
0.5. -/
theorem quiet_row :
    Quiet 2000 1000
      ((List.range 10).map fun k : ℕ =>
        (⟨Num.fin (100 * (k + 1)), Num.fin 500, 10, Num.fin 0.6, Num.fin 0.8⟩ : Bubble))
      (fun _ => 0.5) := by
  constructor
  · intro i j bi bj hij hi hj
    rw [List.getElem?_map] at hi hj
    obtain ⟨ki, hki, rfl⟩ := Option.map_eq_some'.mp hi
    obtain ⟨kj, hkj, rfl⟩ := Option.map_eq_some'.mp hj
    obtain ⟨hi10, hki⟩ := List.getElem?_eq_some_iff.mp hki
    obtain ⟨hj10, hkj⟩ := List.getElem?_eq_some_iff.mp hkj
    simp only [List.length_range] at hi10 hj10
    simp only [List.getElem_range] at hki hkj
    subst hki
    subst hkj
    have hiR : (i : ℝ) + 1 ≤ j := by exact_mod_cast hij
    have hjR : (j : ℝ) ≤ 9 := by
      have : j ≤ 9 := by omega
      exact_mod_cast this
    have hi0 : (0 : ℝ) ≤ i := Nat.cast_nonneg i
    obtain ⟨ex, ey⟩ := update_pos_free 2000 1000 (100 * (i + 1)) 500 0.6 0.8
      ⟨Num.fin (100 * (i + 1)), Num.fin 500, 10, Num.fin 0.6, Num.fin 0.8⟩ rfl rfl rfl rfl
      (by norm_num; linarith) (by norm_num; linarith) (by norm_num) (by norm_num)
    rw [overlap_fin _ _ _ _ (100 * (j + 1)) 500 ex ey rfl rfl, update_radius, not_lt]
    apply Real.le_sqrt_of_sq_le
    nlinarith
  · intro n _
    norm_num

/-! ## The shapes of one pass through the loop body -/

/-- A frame on three particles in which particle 0 neither merges nor splits
at its own turn, particle 1 merges with particle 2, and the split draw that
follows the merge succeeds: the split test then reads `bubbles[0]`, the
updated particle 0, and splits it. -/
theorem animate_three_merge_split (w h : ℝ) (b0 b1 b2 : Bubble) (g : Draws)
    (h01 : ¬ overlap (b0.update w h) b1) (h02 : ¬ overlap (b0.update w h) b2)
    (hd0 : ¬ g 0 < 0.002)
    (h12 : overlap (b1.update w h) b2)
    (hd1 : (mergeBubbles (b1.update w h) b2 g.tail).2 0 < 0.002)
    (hr : (b0.update w h).radius > (b0.update w h).minRadius * 2) :
    animate w h [b0, b1, b2] g = Outcome.done
      (refill w h
        ((mergeBubbles (b1.update w h) b2 g.tail).1
          :: (splitBubble (b0.update w h) (mergeBubbles (b1.update w h) b2 g.tail).2.tail).1)
        (splitBubble (b0.update w h) (mergeBubbles (b1.update w h) b2 g.tail).2.tail).2) := by
  simp [animate, scan, iteration, updateStep, mergeStep, splitStep, getAt, findCollision,
    h01, h02, hd0, h12, hd1, hr]

theorem map_eraseIdx (f : Bubble → Bubble) :
    ∀ (l : List Bubble) (k : ℕ), (l.map f).eraseIdx k = (l.eraseIdx k).map f := by
  intro l
  induction l with
  | nil => intro k; rfl
  | cons a l ih =>
    intro k
    cases k with
    | zero => rfl
    | succ k => simp [ih]

/-- The four shapes of one pass through the loop body, when the live array is
`A ++ rest` and `i = A.length`: the head `b` of `rest` is updated, and then
(1) nothing else happens, or (2) it is split, or (3) it is merged with the
particle at position `k` of the tail, or (4) it is merged and the split test
that follows splits the particle before it, the last of `A`. -/
theorem iteration_cases {w h : ℝ} {s s1 : Frame} {A rest : List Bubble}
    (hi : s.i = A.length) (hb : s.bubbles = A ++ rest) (hit : iteration w h s = some s1) :
    ∃ b tl, rest = b :: tl ∧
      ((s1.bubbles = A ++ b.update w h :: tl ∧ s1.newBubbles = s.newBubbles
          ∧ s1.i = A.length + 1)
      ∨ (∃ g1, s1.bubbles = A ++ tl
          ∧ s1.newBubbles = s.newBubbles ++ (splitBubble (b.update w h) g1).1
          ∧ s1.i = A.length)
      ∨ (∃ k bj g1, tl[k]? = some bj ∧ s1.bubbles = A ++ tl.eraseIdx k
          ∧ s1.newBubbles = s.newBubbles ++ [(mergeBubbles (b.update w h) bj g1).1]
          ∧ s1.i = A.length)
      ∨ (∃ k bj g1 p g2, tl[k]? = some bj ∧ A[A.length - 1]? = some p ∧ 1 ≤ A.length
          ∧ s1.bubbles = A.eraseIdx (A.length - 1) ++ tl.eraseIdx k
          ∧ s1.newBubbles = s.newBubbles ++ [(mergeBubbles (b.update w h) bj g1).1]
              ++ (splitBubble p g2).1
          ∧ s1.i = (A.length - 1 : ℕ))) := by
  obtain ⟨su, sm, ss, hu, hmg, hs, rfl⟩ := iteration_some hit
  obtain ⟨b, hgb, rfl⟩ := updateStep_some hu
  rw [hi, getAt_nat, hb, List.getElem?_append_right (le_refl _), Nat.sub_self] at hgb
  obtain ⟨tl, rfl⟩ : ∃ tl, rest = b :: tl := by
    cases rest with
    | nil => simp at hgb
    | cons a tl => simp at hgb; exact ⟨tl, by rw [hgb]⟩
  have hn : s.i.toNat = A.length := by rw [hi]; simp
  have hset : s.bubbles.set s.i.toNat (b.update w h) = A ++ b.update w h :: tl := by
    rw [hb, hn]; simp
  refine ⟨b, tl, rfl, ?_⟩
  rcases mergeStep_some hmg with rfl | ⟨bi, bj, j, hbi, hj, hbj, -, rfl⟩
  · rcases splitStep_some hs with rfl | ⟨b2, -, hb2, -, rfl⟩
    · left
      exact ⟨hset, rfl, by simp [hi]⟩
    · right; left
      dsimp only at hb2 ⊢
      rw [hset, hi, getAt_nat, List.getElem?_append_right (le_refl _), Nat.sub_self] at hb2
      simp only [List.getElem?_cons_zero, Option.some.injEq] at hb2
      subst hb2
      refine ⟨_, ?_, rfl, by simp [hi]⟩
      rw [hset, hn, List.eraseIdx_append_of_length_le (le_refl _), Nat.sub_self]
      rfl
  · dsimp only at hbi hj hbj hs
    rw [hset, hi, getAt_nat, List.getElem?_append_right (le_refl _), Nat.sub_self] at hbi
    simp only [List.getElem?_cons_zero, Option.some.injEq] at hbi
    subst hbi
    rw [hn] at hj
    obtain ⟨k, rfl⟩ : ∃ k, j = A.length + 1 + k := ⟨j - (A.length + 1), by omega⟩
    rw [hset, List.getElem?_append_right (by omega)] at hbj
    have hk1 : A.length + 1 + k - A.length = k + 1 := by omega
    rw [hk1, List.getElem?_cons_succ] at hbj
    have hers : ((s.bubbles.set s.i.toNat (b.update w h)).eraseIdx (A.length + 1 + k)).eraseIdx
        s.i.toNat = A ++ tl.eraseIdx k := by
      rw [hset, hn, List.eraseIdx_append_of_length_le (by omega), hk1, List.eraseIdx_cons_succ,
        List.eraseIdx_append_of_length_le (le_refl _), Nat.sub_self]
      rfl
    rw [hers] at hs
    rcases splitStep_some hs with rfl | ⟨b2, -, hb2, -, rfl⟩
    · right; right; left
      exact ⟨k, bj, _, hbj, rfl, rfl, by simp [hi]⟩
    · right; right; right
      obtain ⟨h0, hl2, hget⟩ := getAt_some hb2
      dsimp only at h0 hl2 hget ⊢
      have hm1 : 1 ≤ A.length := by omega
      have hidx : (s.i - 1).toNat = A.length - 1 := by rw [hi]; omega
      rw [hidx, List.getElem?_append_left (by omega)] at hget
      refine ⟨k, bj, _, b2, _, hbj, hget, hm1, ?_, rfl, by rw [hi]; omega⟩
      rw [hidx, List.eraseIdx_append_of_lt_length (by omega)]

/-- One pass through the loop body, when the live array is the once-updated
particles `kept.map update` followed by the untouched particles `rest` and
`i = kept.length`: the pass updates the first untouched particle and no
other, the untouched part loses its head and at most one more particle, the
partner of a merge, and the processed part is again a list of once-updated
particles. -/
theorem iteration_visits {w h : ℝ} {s s1 : Frame} {kept rest : List Bubble}
    (hi : s.i = kept.length) (hb : s.bubbles = kept.map (Bubble.update w h) ++ rest)
    (hit : iteration w h s = some s1) :
    ∃ (b : Bubble) (tl kept1 rest1 : List Bubble), rest = b :: tl ∧ s1.i = (kept1.length : ℕ)
      ∧ s1.bubbles = kept1.map (Bubble.update w h) ++ rest1
      ∧ kept1.Sublist (kept ++ [b])
      ∧ (rest1 = tl ∨ ∃ k bj g1, tl[k]? = some bj ∧ rest1 = tl.eraseIdx k
          ∧ (mergeBubbles (b.update w h) bj g1).1 ∈ s1.newBubbles) := by
  have hi2 : s.i = ((kept.map (Bubble.update w h)).length : ℕ) := by
    rw [List.length_map]; exact hi
  obtain ⟨b, tl, rfl, hc⟩ := iteration_cases hi2 hb hit
  simp only [List.length_map] at hc
  refine ⟨b, tl, ?_⟩
  rcases hc with ⟨h1, -, h3⟩ | ⟨g1, h1, -, h3⟩ | ⟨k, bj, g1, hk, h1, h2, h3⟩
    | ⟨k, bj, g1, p, g2, hk, -, hm, h1, h2, h3⟩
  · refine ⟨kept ++ [b], tl, rfl, by rw [h3]; simp, ?_, List.Sublist.refl _, Or.inl rfl⟩
    rw [h1]; simp
  · exact ⟨kept, tl, rfl, h3, h1, List.sublist_append_left _ _, Or.inl rfl⟩
  · refine ⟨kept, tl.eraseIdx k, rfl, h3, h1, List.sublist_append_left _ _,
      Or.inr ⟨k, bj, g1, hk, rfl, ?_⟩⟩
    rw [h2]; simp
  · refine ⟨kept.eraseIdx (kept.length - 1), tl.eraseIdx k, rfl, ?_, ?_,
      (List.eraseIdx_sublist _ _).trans (List.sublist_append_left _ _),
      Or.inr ⟨k, bj, g1, hk, rfl, ?_⟩⟩
    · rw [h3, List.length_eraseIdx_of_lt (by omega)]
    · rw [h1, map_eraseIdx]
    · rw [h2]; simp

/-- What one pass through the loop body does to the queue `newBubbles` and
to the length of the live array: nothing; or a split (two children queued,
one particle removed); or a merge (one product queued, two particles
removed); or a merge followed by a split.  Entries already in the queue are
kept as they are. -/
theorem iteration_account {w h : ℝ} {s s1 : Frame} (hit : iteration w h s = some s1) :
    (s1.newBubbles = s.newBubbles ∧ s1.bubbles.length = s.bubbles.length)
    ∨ (∃ (p : Bubble) (g1 : Draws) (c1 c2 : Bubble), (splitBubble p g1).1 = [c1, c2]
        ∧ s1.newBubbles = s.newBubbles ++ [c1, c2]
        ∧ s1.bubbles.length + 1 = s.bubbles.length)
    ∨ (∃ (bi bj : Bubble) (g1 : Draws),
        s1.newBubbles = s.newBubbles ++ [(mergeBubbles bi bj g1).1]
        ∧ s1.bubbles.length + 2 = s.bubbles.length)
    ∨ (∃ (bi bj : Bubble) (g1 : Draws) (p : Bubble) (g2 : Draws) (c1 c2 : Bubble),
        (splitBubble p g2).1 = [c1, c2]
        ∧ s1.newBubbles = s.newBubbles ++ [(mergeBubbles bi bj g1).1] ++ [c1, c2]
        ∧ s1.bubbles.length + 3 = s.bubbles.length) := by
  obtain ⟨su, -, -, hu, -, -, -⟩ := iteration_some hit
  obtain ⟨b0, hgb, -⟩ := updateStep_some hu
  obtain ⟨h0, hlt, -⟩ := getAt_some hgb
  have hi : s.i = ((s.bubbles.take s.i.toNat).length : ℕ) := by
    rw [List.length_take, min_eq_left hlt.le]
    exact (Int.toNat_of_nonneg h0).symm
  have hlen : (s.bubbles.take s.i.toNat).length = s.i.toNat := by
    rw [List.length_take, min_eq_left hlt.le]
  have hb : s.bubbles = s.bubbles.take s.i.toNat ++ s.bubbles.drop s.i.toNat :=
    (List.take_append_drop _ _).symm
  obtain ⟨b, tl, hrest, hc⟩ := iteration_cases hi hb hit
  have hL : s.bubbles.length = s.i.toNat + (tl.length + 1) := by
    have := congrArg List.length hb
    rw [List.length_append, hlen, hrest, List.length_cons] at this
    exact this
  rcases hc with ⟨h1, h2, -⟩ | ⟨g1, h1, h2, -⟩ | ⟨k, bj, g1, hk, h1, h2, -⟩
    | ⟨k, bj, g1, p, g2, hk, -, hm, h1, h2, -⟩
  · left
    refine ⟨h2, ?_⟩
    rw [h1, List.length_append, hlen, List.length_cons, hL]
  · right; left
    obtain ⟨c1, c2, hl, -, -⟩ := splitBubble_fst (b.update w h) g1
    refine ⟨_, g1, c1, c2, hl, by rw [h2, hl], ?_⟩
    rw [h1, List.length_append, hlen, hL]
    omega
  · right; right; left
    have hkl : k < tl.length := (List.getElem?_eq_some_iff.mp hk).1
    refine ⟨_, bj, g1, h2, ?_⟩
    rw [h1, List.length_append, hlen, List.length_eraseIdx_of_lt hkl, hL]
    omega
  · right; right; right
    have hkl : k < tl.length := (List.getElem?_eq_some_iff.mp hk).1
    obtain ⟨c1, c2, hl, -, -⟩ := splitBubble_fst p g2
    refine ⟨_, bj, g1, p, g2, c1, c2, hl, by rw [h2, hl], ?_⟩
    rw [h1, List.length_append, List.length_eraseIdx_of_lt (by omega),
      List.length_eraseIdx_of_lt hkl, hL]
    rw [hlen] at hm ⊢
    omega

/-- C11, evaluated at a failing input.  For a particle of velocity exactly
`(0, 0)` the speed is 0, the minimum-speed step of `update()` divides `0 / 0`
and both velocity components become `NaN`; on the next tick the position
becomes `NaN` as well. -/
theorem update_zero_velocity_nan :
    (Bubble.update 1000 1000 ⟨Num.fin 100, Num.fin 100, 10, Num.fin 0, Num.fin 0⟩).vx = Num.nan
    ∧ (Bubble.update 1000 1000 ⟨Num.fin 100, Num.fin 100, 10, Num.fin 0, Num.fin 0⟩).vy = Num.nan
    ∧ (Bubble.update 1000 1000
        (Bubble.update 1000 1000 ⟨Num.fin 100, Num.fin 100, 10, Num.fin 0, Num.fin 0⟩)).x
        = Num.nan
    ∧ (Bubble.update 1000 1000
        (Bubble.update 1000 1000 ⟨Num.fin 100, Num.fin 100, 10, Num.fin 0, Num.fin 0⟩)).y
        = Num.nan := by
  have hvx : (Bubble.update 1000 1000
      ⟨Num.fin 100, Num.fin 100, 10, Num.fin 0, Num.fin 0⟩).vx = Num.nan := by
    simp [Bubble.update, reflect]
    norm_num
  have hvy : (Bubble.update 1000 1000
      ⟨Num.fin 100, Num.fin 100, 10, Num.fin 0, Num.fin 0⟩).vy = Num.nan := by
    simp [Bubble.update, reflect]
    norm_num
  refine ⟨hvx, hvy, ?_, ?_⟩
  · rw [update_x, hvx]
    simp [reflect]
  · rw [update_y, hvy]
    simp [reflect]

/-- C12: a frame on at least 10 particles in which no pair passes the merge
test during the scan and no split draw is below 0.002 returns the same
particles in the same order, each advanced by one `update()` (one draw is
consumed for each), so the length is unchanged; hence over any number `N` of
such frames in a row the population keeps its size (10 stays 10). -/
theorem animate_quiet (w h : ℝ) (bs : List Bubble) (g : Draws)
    (hlen : 10 ≤ bs.length) (hq : Quiet w h bs g) :
    animate w h bs g
      = Outcome.done (bs.map (Bubble.update w h), fun n => g (n + bs.length))
    ∧ (bs.map (Bubble.update w h)).length = bs.length
    ∧ ∀ N : ℕ, QuietRun w h N bs g →
        ∃ r, frames w h N bs g = Outcome.done r ∧ r.1.length = bs.length :=
  ⟨quiet_frame_eq w h bs g hlen hq, List.length_map _ _,
   fun N hN => frames_quiet w h N bs g hlen hN⟩

/-- Witness for C12: ten particles of radius 10 in a row, 100 apart, on a
2000 x 1000 surface, every draw equal to 0.5. -/
theorem animate_quiet_witness :
    10 ≤ ((List.range 10).map fun k : ℕ =>
        (⟨Num.fin (100 * (k + 1)), Num.fin 500, 10, Num.fin 0.6, Num.fin 0.8⟩ : Bubble)).length
    ∧ animate 2000 1000
        ((List.range 10).map fun k : ℕ =>
        (⟨Num.fin (100 * (k + 1)), Num.fin 500, 10, Num.fin 0.6, Num.fin 0.8⟩ : Bubble))
        (fun _ => 0.5)
      = Outcome.done
        (((List.range 10).map fun k : ℕ =>
        (⟨Num.fin (100 * (k + 1)), Num.fin 500, 10, Num.fin 0.6, Num.fin 0.8⟩ : Bubble)).map
            (Bubble.update 2000 1000),
          fun _ => 0.5)
    ∧ ∃ r, frames 2000 1000 1
        ((List.range 10).map fun k : ℕ =>
        (⟨Num.fin (100 * (k + 1)), Num.fin 500, 10, Num.fin 0.6, Num.fin 0.8⟩ : Bubble))
        (fun _ => 0.5) = Outcome.done r
      ∧ r.1.length = ((List.range 10).map fun k : ℕ =>
        (⟨Num.fin (100 * (k + 1)), Num.fin 500, 10, Num.fin 0.6, Num.fin 0.8⟩ : Bubble)).length :=
  ⟨by simp,
   (animate_quiet 2000 1000 _ (fun _ => 0.5) (by simp) quiet_row).1,
   (animate_quiet 2000 1000 _ (fun _ => 0.5) (by simp) quiet_row).2.2 1
     ⟨quiet_row, fun _ _ => trivial⟩⟩

/-- C13, evaluated at a failing input.  Three particles: particle 0 (radius
20) overlaps no other and its own split draw is 0.5, so its own trial does
not split it; particle 1 then merges with particle 2, `i` is decremented to
0, and the split test that follows draws 0.001 < 0.002 and reads
`bubbles[0]`, the already-tried particle 0, which is split: the scan leaves
no survivor, and the queue holds the merge product followed by the two
children of particle 0. -/
theorem animate_second_split_trial :
    animate 1000 1000
      [⟨Num.fin 100, Num.fin 100, 20, Num.fin 0.6, Num.fin 0.8⟩,
       ⟨Num.fin 500, Num.fin 500, 10, Num.fin 0.6, Num.fin 0.8⟩,
       ⟨Num.fin 505, Num.fin 500, 10, Num.fin 0.6, Num.fin 0.8⟩]
      (fun n => if n = 0 then 0.5 else 0.001)
    = Outcome.done (refill 1000 1000
        ((mergeBubbles
            (Bubble.update 1000 1000 ⟨Num.fin 500, Num.fin 500, 10, Num.fin 0.6, Num.fin 0.8⟩)
            ⟨Num.fin 505, Num.fin 500, 10, Num.fin 0.6, Num.fin 0.8⟩ (fun _ => 0.001)).1
          :: (splitBubble
            (Bubble.update 1000 1000 ⟨Num.fin 100, Num.fin 100, 20, Num.fin 0.6, Num.fin 0.8⟩)
            (fun _ => 0.001)).1)
        (splitBubble
          (Bubble.update 1000 1000 ⟨Num.fin 100, Num.fin 100, 20, Num.fin 0.6, Num.fin 0.8⟩)
          (fun _ => 0.001)).2)
    ∧ ¬ ((0.5 : ℝ) < 0.002) := by
  have hg : Draws.tail (fun n => if n = 0 then (0.5 : ℝ) else 0.001) = fun _ => 0.001 := by
    funext n; simp [Draws.tail]
  have ht : Draws.tail (fun _ : ℕ => (0.001 : ℝ)) = fun _ => 0.001 := rfl
  obtain ⟨e0x, e0y⟩ := update_pos_free 1000 1000 100 100 0.6 0.8
    ⟨Num.fin 100, Num.fin 100, 20, Num.fin 0.6, Num.fin 0.8⟩ rfl rfl rfl rfl
    (by norm_num) (by norm_num) (by norm_num) (by norm_num)
  obtain ⟨e1x, e1y⟩ := update_pos_free 1000 1000 500 500 0.6 0.8
    ⟨Num.fin 500, Num.fin 500, 10, Num.fin 0.6, Num.fin 0.8⟩ rfl rfl rfl rfl
    (by norm_num) (by norm_num) (by norm_num) (by norm_num)
  refine ⟨?_, by norm_num⟩
  have key := animate_three_merge_split 1000 1000
    ⟨Num.fin 100, Num.fin 100, 20, Num.fin 0.6, Num.fin 0.8⟩
    ⟨Num.fin 500, Num.fin 500, 10, Num.fin 0.6, Num.fin 0.8⟩
    ⟨Num.fin 505, Num.fin 500, 10, Num.fin 0.6, Num.fin 0.8⟩
    (fun n => if n = 0 then 0.5 else 0.001)
    (by
      rw [overlap_fin _ _ _ _ 500 500 e0x e0y rfl rfl, update_radius, not_lt]
      apply Real.le_sqrt_of_sq_le
      norm_num)
    (by
      rw [overlap_fin _ _ _ _ 505 500 e0x e0y rfl rfl, update_radius, not_lt]
      apply Real.le_sqrt_of_sq_le
      norm_num)
    (by norm_num)
    (by
      rw [overlap_fin _ _ _ _ 505 500 e1x e1y rfl rfl, update_radius,
        Real.sqrt_lt' (by norm_num)]
      norm_num)
    (by rw [hg, mergeBubbles_snd_const]; norm_num)
    (by rw [update_radius]; norm_num [Bubble.minRadius])
  rw [hg, mergeBubbles_snd_const, ht] at key
  exact key

/-- C14: no particle is updated twice and none is skipped.  In every pass
through the loop body from a state whose live array is the once-updated
particles `kept.map update` followed by the untouched particles `rest`, with
`i = kept.length`, the particle updated is the first untouched one; after the
pass the array has again that form, the processed part being a sublist of
`kept ++ [b]` and the untouched part being the old tail, less the partner `j`
when a merge happened.  Hence, in every frame that completes, the survivors
of the scan are the images under one `update()` of a sublist of the start
collection. -/
theorem scan_updates_once (w h : ℝ) (bs : List Bubble) (g : Draws) :
    (∀ (s s1 : Frame) (kept rest : List Bubble), s.i = kept.length →
        s.bubbles = kept.map (Bubble.update w h) ++ rest → iteration w h s = some s1 →
        ∃ (b : Bubble) (tl kept1 rest1 : List Bubble), rest = b :: tl ∧ s1.i = (kept1.length : ℕ)
          ∧ s1.bubbles = kept1.map (Bubble.update w h) ++ rest1
          ∧ kept1.Sublist (kept ++ [b])
          ∧ (rest1 = tl ∨ ∃ k bj g1, tl[k]? = some bj ∧ rest1 = tl.eraseIdx k
              ∧ (mergeBubbles (b.update w h) bj g1).1 ∈ s1.newBubbles))
    ∧ ∀ r, animate w h bs g = Outcome.done r →
        ∃ (s : Frame) (kept injected : List Bubble),
          scan w h (bs.length + 1) { bubbles := bs, newBubbles := [], i := 0, g := g }
            = Outcome.done s
          ∧ r.1 = s.bubbles ++ s.newBubbles ++ injected
          ∧ kept.Sublist bs
          ∧ s.bubbles = kept.map (Bubble.update w h) := by
  refine ⟨fun s s1 kept rest hi hb hit => iteration_visits hi hb hit, ?_⟩
  intro r ha
  obtain ⟨s, hs, rfl⟩ := animate_done ha
  obtain ⟨inj, hinj⟩ := refill_append w h (s.bubbles ++ s.newBubbles) s.g
  obtain ⟨⟨kept, rest, hi, hb, hsub⟩, hend⟩ := scan_invariant w h
    (fun s => ∃ kept rest : List Bubble, s.i = (kept.length : ℕ)
      ∧ s.bubbles = kept.map (Bubble.update w h) ++ rest ∧ (kept ++ rest).Sublist bs)
    (fun s s1 hP _ hit => by
      obtain ⟨kept, rest, hi, hb, hsub⟩ := hP
      obtain ⟨b, tl, kept1, rest1, rfl, h1, h2, h3, h4⟩ := iteration_visits hi hb hit
      refine ⟨kept1, rest1, h1, h2, List.Sublist.trans ?_ hsub⟩
      have hr : rest1.Sublist tl := by
        rcases h4 with rfl | ⟨k, bj, g1, -, rfl, -⟩
        · exact List.Sublist.refl _
        · exact List.eraseIdx_sublist _ _
      have : (kept ++ [b] ++ tl) = kept ++ b :: tl := by simp
      rw [← this]
      exact List.Sublist.append h3 hr) _ _ s
    ⟨[], bs, rfl, rfl, List.Sublist.refl _⟩ hs
  have hrest : rest = [] := by
    rw [hb, hi] at hend
    simp only [List.length_append, List.length_map] at hend
    have : rest.length = 0 := by
      push_cast at hend
      omega
    exact List.length_eq_zero.mp this
  subst hrest
  simp only [List.append_nil] at hb hsub
  exact ⟨s, kept, inj, hs, hinj, hsub, hb⟩

/-- Witness for C14: a frame on one particle, which survives updated once. -/
theorem scan_updates_once_witness :
    animate 1000 1000 [⟨Num.fin 100, Num.fin 100, 10, Num.fin 0.6, Num.fin 0.8⟩] (fun _ => 0.5)
      = Outcome.done (refill 1000 1000 [Bubble.update 1000 1000 ⟨Num.fin 100, Num.fin 100, 10, Num.fin 0.6, Num.fin 0.8⟩] (Draws.tail fun _ => 0.5))
    ∧ ∃ (s : Frame) (kept injected : List Bubble),
      scan 1000 1000 2
          { bubbles := [⟨Num.fin 100, Num.fin 100, 10, Num.fin 0.6, Num.fin 0.8⟩], newBubbles := [], i := 0, g := fun _ => 0.5 }
        = Outcome.done s
      ∧ (refill 1000 1000 [Bubble.update 1000 1000 ⟨Num.fin 100, Num.fin 100, 10, Num.fin 0.6, Num.fin 0.8⟩] (Draws.tail fun _ => 0.5)).1
        = s.bubbles ++ s.newBubbles ++ injected
      ∧ kept.Sublist [⟨Num.fin 100, Num.fin 100, 10, Num.fin 0.6, Num.fin 0.8⟩]
      ∧ s.bubbles = kept.map (Bubble.update 1000 1000) :=
  ⟨animate_single _ _ _ _ (by norm_num),
   (scan_updates_once 1000 1000 [⟨Num.fin 100, Num.fin 100, 10, Num.fin 0.6, Num.fin 0.8⟩] (fun _ => 0.5)).2 _
     (animate_single _ _ _ _ (by norm_num))⟩

/-- The geometry of a split in exact arithmetic: for a particle with real
centre `(px, py)` and any draw for the angle, the two children of
`splitBubble` are centred at `(px, py) ± (cos, sin)(angle) * childRadius` and
the distance between their centres is exactly the sum of their radii,
`2 * childRadius`.  The strict merge test `distance < r1 + r2` thus sits on
its boundary for the two siblings, at every angle: on the code's doubles its
outcome is decided by rounding, and no statement about it is made. -/
theorem splitBubble_centres_exact (b : Bubble) (g : Draws) (px py : ℝ)
    (hx : b.x = Num.fin px) (hy : b.y = Num.fin py) :
    ∃ (c1 c2 : Bubble) (x1 y1 x2 y2 : ℝ), (splitBubble b g).1 = [c1, c2]
      ∧ c1.x = Num.fin x1 ∧ c1.y = Num.fin y1 ∧ c2.x = Num.fin x2 ∧ c2.y = Num.fin y2
      ∧ x1 = px + Real.cos (g 0 * Real.pi * 2) * c1.radius
      ∧ y1 = py + Real.sin (g 0 * Real.pi * 2) * c1.radius
      ∧ x2 = px - Real.cos (g 0 * Real.pi * 2) * c2.radius
      ∧ y2 = py - Real.sin (g 0 * Real.pi * 2) * c2.radius
      ∧ c1.radius = max (b.radius / Real.sqrt 2) 5 ∧ c2.radius = c1.radius
      ∧ Real.sqrt ((x1 - x2) * (x1 - x2) + (y1 - y2) * (y1 - y2)) = c1.radius + c2.radius
      ∧ c1.radius + c2.radius = 2 * max (b.radius / Real.sqrt 2) 5 := by
  obtain ⟨c1, c2, hl, hr1, hr2, hx1, hy1, hx2, hy2⟩ := splitBubble_children b g
  rw [hx] at hx1 hx2
  rw [hy] at hy1 hy2
  simp only [Num.fin_mul, Num.fin_add, Num.fin_sub] at hx1 hy1 hx2 hy2
  have hpos := splitRadius_pos b.radius
  set R := max (b.radius / Real.sqrt 2) 5 with hR
  set θ := g 0 * Real.pi * 2 with hθ
  have hdist : ∀ sx : ℝ, sx = 1 ∨ sx = -1 →
      Real.sqrt ((sx * (2 * Real.cos θ * R)) * (sx * (2 * Real.cos θ * R))
        + (sx * (2 * Real.sin θ * R)) * (sx * (2 * Real.sin θ * R))) = R + R := by
    intro sx hsx
    have hcs := Real.cos_sq_add_sin_sq θ
    have : (sx * (2 * Real.cos θ * R)) * (sx * (2 * Real.cos θ * R))
        + (sx * (2 * Real.sin θ * R)) * (sx * (2 * Real.sin θ * R)) = (R + R) * (R + R) := by
      have hs2 : sx * sx = 1 := by rcases hsx with h | h <;> rw [h] <;> norm_num
      calc (sx * (2 * Real.cos θ * R)) * (sx * (2 * Real.cos θ * R))
            + (sx * (2 * Real.sin θ * R)) * (sx * (2 * Real.sin θ * R))
          = (sx * sx) * (4 * R * R * (Real.cos θ ^ 2 + Real.sin θ ^ 2)) := by ring
        _ = (R + R) * (R + R) := by rw [hs2, hcs]; ring
    rw [this, Real.sqrt_mul_self (by positivity)]
  have e12 : Real.sqrt ((px + Real.cos θ * R - (px - Real.cos θ * R))
        * (px + Real.cos θ * R - (px - Real.cos θ * R))
      + (py + Real.sin θ * R - (py - Real.sin θ * R))
        * (py + Real.sin θ * R - (py - Real.sin θ * R))) = R + R := by
    have := hdist 1 (Or.inl rfl)
    rw [← this]; congr 1; ring
  refine ⟨c1, c2, _, _, _, _, hl, hx1, hy1, hx2, hy2, by rw [hr1], by rw [hr1],
    by rw [hr2], by rw [hr2], hr1, by rw [hr1, hr2], ?_, by rw [hr1, hr2]; ring⟩
  rw [hr1, hr2]; exact e12

/-- C16, evaluated at a failing input.  A particle of velocity `(0.5, 0)`,
speed 0.5, split along angle 0 (draw 0), every later draw 0.75.  The claimed
child velocities are `(1, 0)` and `(0, 0)`; the constructor's `vx || ...` and
`vy || ...` treat the three zero components as missing and redraw them as
`(0.75 - 0.5) * 2 = 0.5`, so the children get `(1, 0.5)` and `(0.5, 0.5)`. -/
theorem splitBubble_zero_velocity_redrawn :
    ∃ c1 c2 : Bubble,
      (splitBubble ⟨Num.fin 100, Num.fin 100, 20, Num.fin 0.5, Num.fin 0⟩
        (fun n => if n = 0 then 0 else 0.75)).1 = [c1, c2]
      ∧ c1.vx = Num.fin 1 ∧ c1.vy = Num.fin 0.5
      ∧ c2.vx = Num.fin 0.5 ∧ c2.vy = Num.fin 0.5
      ∧ (0 : ℝ) + Real.sin (0 * Real.pi * 2) * Real.sqrt (0.5 * 0.5 + 0 * 0) = 0
      ∧ (0.5 : ℝ) - Real.cos (0 * Real.pi * 2) * Real.sqrt (0.5 * 0.5 + 0 * 0) = 0
      ∧ (0 : ℝ) - Real.sin (0 * Real.pi * 2) * Real.sqrt (0.5 * 0.5 + 0 * 0) = 0 := by
  have hq := sqrt_quarter
  obtain ⟨c1, c2, g1, g2, g3, hl, h1, e1, h2, e2, h3, e3, h4⟩ :=
    splitBubble_velocity ⟨Num.fin 100, Num.fin 100, 20, Num.fin 0.5, Num.fin 0⟩
      (fun n => if n = 0 then 0 else 0.75) 0.5 0 rfl rfl
  have hg : Draws.tail (fun n => if n = 0 then (0 : ℝ) else 0.75) = fun _ => 0.75 := by
    funext n; simp [Draws.tail]
  simp only [hq, hg] at h1 e1 h2 e2 h3 e3 h4
  simp only [eq_self_iff_true, if_true, zero_mul, Real.cos_zero, Real.sin_zero, add_zero,
    sub_zero] at h1 e1 h2 e2 h3 e3 h4
  have a1 : (0.5 : ℝ) + 1 * 0.5 = 1 := by norm_num
  have a3 : (0.5 : ℝ) - 1 * 0.5 = 0 := by norm_num
  rw [a1] at h1 e1
  rw [a3] at h3 e3
  rw [orRandom_fin_of_ne _ _ _ one_ne_zero] at h1 e1
  simp only at e1
  subst e1
  have hz : ∀ g0 : Draws, orRandom (Num.fin 0) (fun d => (d - 0.5) * 2) g0
      = ((g0 0 - 0.5) * 2, g0.tail) := by
    intro g0; simp [orRandom]
  have ht : Draws.tail (fun _ : ℕ => (0.75 : ℝ)) = fun _ => 0.75 := rfl
  rw [hz] at h2 e2
  simp only [ht] at e2 h2
  subst e2
  rw [hz] at h3 e3
  simp only [ht] at e3 h3
  subst e3
  rw [hz] at h4
  simp only at h4
  refine ⟨c1, c2, hl, h1, ?_, ?_, ?_, ?_, ?_, ?_⟩
  · rw [h2]; norm_num
  · rw [h3]; norm_num
  · rw [h4]; norm_num
  · simp
  · rw [hq]; simp
  · simp

/-- C17: for a particle with real non-zero velocity of speed `s0` and every
`n ≥ 1`, the speed after `n` consecutive `update()` calls is
`max (0.99^n * s0) 0.495`, whatever the wall reflections; it is positive, and
once `0.99^k * s0 ≤ 0.5` (the speed is at or below 0.5 after `k` ticks, `k = 0`
included) the speed is 0.495 at every later tick. -/
theorem update_iterate_speed (w h a c : ℝ) (b : Bubble)
    (hvx : b.vx = Num.fin a) (hvy : b.vy = Num.fin c) (hne : a ≠ 0 ∨ c ≠ 0)
    (n : ℕ) (hn : 1 ≤ n) :
    ((Bubble.update w h)^[n] b).speed
        = Num.fin (max (0.99 ^ n * Real.sqrt (a * a + c * c)) 0.495)
    ∧ 0 < max (0.99 ^ n * Real.sqrt (a * a + c * c)) 0.495
    ∧ ∀ k : ℕ, 0.99 ^ k * Real.sqrt (a * a + c * c) ≤ 0.5 → ∀ m : ℕ, k < m →
        ((Bubble.update w h)^[m] b).speed = Num.fin 0.495 := by
  have hs0 : 0 < Real.sqrt (a * a + c * c) := Real.sqrt_pos.mpr (sum_sq_pos a c hne)
  have key : ∀ m : ℕ, 1 ≤ m → ((Bubble.update w h)^[m] b).speed
      = Num.fin (max (0.99 ^ m * Real.sqrt (a * a + c * c)) 0.495) := by
    intro m hm
    obtain ⟨m, rfl⟩ : ∃ j, m = j + 1 := ⟨m - 1, by omega⟩
    obtain ⟨a1, c1, e1, e2, hn1, hs⟩ := update_iterate_real w h a c b hvx hvy hne m
    unfold Bubble.speed
    rw [e1, e2]
    simp only [Num.sq_fin, Num.fin_add, Num.sqrt_fin]
    rw [if_neg (not_lt.mpr (sum_sq_pos a1 c1 hn1).le), hs]
  refine ⟨key n hn, lt_max_of_lt_right (by norm_num), ?_⟩
  intro k hk m hkm
  rw [key m (by omega)]
  congr 1
  apply max_eq_right
  obtain ⟨d, rfl⟩ : ∃ d, m = k + (d + 1) := ⟨m - k - 1, by omega⟩
  have h1 : (0.99 : ℝ) ^ (d + 1) ≤ 0.99 := by
    rw [pow_succ]
    have : (0.99 : ℝ) ^ d ≤ 1 := pow_le_one₀ (by norm_num) (by norm_num)
    nlinarith
  have h2 : (0 : ℝ) ≤ 0.99 ^ k * Real.sqrt (a * a + c * c) := by positivity
  rw [pow_add]
  have h3 : (0 : ℝ) ≤ 0.99 ^ (d + 1) := by positivity
  calc (0.99 : ℝ) ^ k * 0.99 ^ (d + 1) * Real.sqrt (a * a + c * c)
      = 0.99 ^ (d + 1) * (0.99 ^ k * Real.sqrt (a * a + c * c)) := by ring
    _ ≤ 0.99 * 0.5 := mul_le_mul h1 hk h2 (by norm_num)
    _ = 0.495 := by norm_num

/-- Witness for C17: velocity `(0.6, 0.8)`, three ticks. -/
theorem update_iterate_speed_witness :
    ((0.6 : ℝ) ≠ 0 ∨ (0.8 : ℝ) ≠ 0) ∧ 1 ≤ 3
    ∧ ((Bubble.update 1000 1000)^[3]
        ⟨Num.fin 100, Num.fin 100, 10, Num.fin 0.6, Num.fin 0.8⟩).speed
      = Num.fin (max (0.99 ^ 3 * Real.sqrt (0.6 * 0.6 + 0.8 * 0.8)) 0.495) :=
  ⟨Or.inl (by norm_num), by norm_num,
   (update_iterate_speed 1000 1000 0.6 0.8
      ⟨Num.fin 100, Num.fin 100, 10, Num.fin 0.6, Num.fin 0.8⟩ rfl rfl
      (Or.inl (by norm_num)) 3 (by norm_num)).1⟩

/-- C18: for a particle with real position and velocity `v = (a, c)` of
speed `s` that touches no wall in the tick: if `0 < s < 0.5` the velocity
after `update()` is `0.99 * (0.5 / s) * v`, where `(0.5 / s) * v` is a
positive multiple of `v` of magnitude exactly 0.5; if `s ≥ 0.5` the velocity
after `update()` is `0.99 * v`. -/
theorem update_velocity_rescaled (w h px py a c : ℝ) (b : Bubble)
    (hx : b.x = Num.fin px) (hy : b.y = Num.fin py)
    (hvx : b.vx = Num.fin a) (hvy : b.vy = Num.fin c)
    (hx1 : 0 ≤ px + a - b.radius) (hx2 : px + a + b.radius ≤ w)
    (hy1 : 0 ≤ py + c - b.radius) (hy2 : py + c + b.radius ≤ h) :
    (0 < Real.sqrt (a * a + c * c) → Real.sqrt (a * a + c * c) < 0.5 →
      (b.update w h).vx = Num.fin (0.99 * (0.5 / Real.sqrt (a * a + c * c) * a))
      ∧ (b.update w h).vy = Num.fin (0.99 * (0.5 / Real.sqrt (a * a + c * c) * c))
      ∧ 0 < 0.5 / Real.sqrt (a * a + c * c)
      ∧ Real.sqrt ((0.5 / Real.sqrt (a * a + c * c) * a) * (0.5 / Real.sqrt (a * a + c * c) * a)
          + (0.5 / Real.sqrt (a * a + c * c) * c) * (0.5 / Real.sqrt (a * a + c * c) * c)) = 0.5)
    ∧ (0.5 ≤ Real.sqrt (a * a + c * c) →
      (b.update w h).vx = Num.fin (0.99 * a) ∧ (b.update w h).vy = Num.fin (0.99 * c)) := by
  have ex := reflectedVx_of_free w px a b hx hx1 hx2
  have ey := reflectedVy_of_free h py c b hy hy1 hy2
  constructor
  · intro hs hlt
    have hne : a ≠ 0 ∨ c ≠ 0 := by
      by_contra hcon
      push_neg at hcon
      rw [hcon.1, hcon.2] at hs
      simp at hs
    obtain ⟨h1, h2⟩ := update_velocity w h a c b hvx hvy hne
    rw [ex, if_pos hlt] at h1
    rw [ey, if_pos hlt] at h2
    refine ⟨?_, ?_, by positivity, ?_⟩
    · rw [h1]; congr 1; field_simp; ring
    · rw [h2]; congr 1; field_simp; ring
    · have hss : Real.sqrt (a * a + c * c) * Real.sqrt (a * a + c * c) = a * a + c * c :=
        Real.mul_self_sqrt (sum_sq_pos a c hne).le
      set s := Real.sqrt (a * a + c * c)
      have : 0.5 / s * a * (0.5 / s * a) + 0.5 / s * c * (0.5 / s * c) = 0.5 * 0.5 := by
        field_simp
        nlinarith
      rw [this, Real.sqrt_mul_self (by norm_num)]
  · intro hge
    have hne : a ≠ 0 ∨ c ≠ 0 := by
      by_contra hcon
      push_neg at hcon
      rw [hcon.1, hcon.2] at hge
      norm_num at hge
    obtain ⟨h1, h2⟩ := update_velocity w h a c b hvx hvy hne
    rw [ex, if_neg (not_lt.mpr hge)] at h1
    rw [ey, if_neg (not_lt.mpr hge)] at h2
    exact ⟨by rw [h1, mul_comm], by rw [h2, mul_comm]⟩

/-- Witness for C18: velocity `(0.3, 0)`, of speed 0.3, away from the walls. -/
theorem update_velocity_rescaled_witness :
    (0 < Real.sqrt (0.3 * 0.3 + 0 * 0) ∧ Real.sqrt (0.3 * 0.3 + 0 * 0) < 0.5)
    ∧ (Bubble.update 1000 1000 ⟨Num.fin 100, Num.fin 100, 10, Num.fin 0.3, Num.fin 0⟩).vx
        = Num.fin (0.99 * (0.5 / Real.sqrt (0.3 * 0.3 + 0 * 0) * 0.3))
    ∧ (Bubble.update 1000 1000 ⟨Num.fin 100, Num.fin 100, 10, Num.fin 0.3, Num.fin 0⟩).vy
        = Num.fin (0.99 * (0.5 / Real.sqrt (0.3 * 0.3 + 0 * 0) * 0)) := by
  have h0 : 0 < Real.sqrt (0.3 * 0.3 + 0 * 0) := Real.sqrt_pos.mpr (by norm_num)
  have h1 : Real.sqrt (0.3 * 0.3 + 0 * 0) < 0.5 := by
    rw [Real.sqrt_lt' (by norm_num)]; norm_num
  obtain ⟨e1, e2, -, -⟩ := (update_velocity_rescaled 1000 1000 100 100 0.3 0
    ⟨Num.fin 100, Num.fin 100, 10, Num.fin 0.3, Num.fin 0⟩ rfl rfl rfl rfl
    (by norm_num) (by norm_num) (by norm_num) (by norm_num)).1 h0 h1
  exact ⟨⟨h0, h1⟩, e1, e2⟩

/-- C19: merge products and split children are queued and appended as
created.  Every pass through the loop body leaves the queue `newBubbles`
unchanged or appends to it the value returned by `mergeBubbles` (while the
live array loses exactly two particles), the two values returned by
`splitBubble` (while it loses exactly one), or both; entries already queued
are never touched.  In every frame that completes, the end collection is the
survivors, then the queue, then the refill injections, and with `merges`
merges and `splits` splits the queue holds `merges + 2 * splits` particles
and the survivors number `bs.length - 2 * merges - splits`. -/
theorem animate_created_appended (w h : ℝ) (bs : List Bubble) (g : Draws) :
    (∀ s s1 : Frame, iteration w h s = some s1 →
      (s1.newBubbles = s.newBubbles ∧ s1.bubbles.length = s.bubbles.length)
      ∨ (∃ (p : Bubble) (g1 : Draws) (c1 c2 : Bubble), (splitBubble p g1).1 = [c1, c2]
          ∧ s1.newBubbles = s.newBubbles ++ [c1, c2]
          ∧ s1.bubbles.length + 1 = s.bubbles.length)
      ∨ (∃ (bi bj : Bubble) (g1 : Draws),
          s1.newBubbles = s.newBubbles ++ [(mergeBubbles bi bj g1).1]
          ∧ s1.bubbles.length + 2 = s.bubbles.length)
      ∨ (∃ (bi bj : Bubble) (g1 : Draws) (p : Bubble) (g2 : Draws) (c1 c2 : Bubble),
          (splitBubble p g2).1 = [c1, c2]
          ∧ s1.newBubbles = s.newBubbles ++ [(mergeBubbles bi bj g1).1] ++ [c1, c2]
          ∧ s1.bubbles.length + 3 = s.bubbles.length))
    ∧ ∀ r, animate w h bs g = Outcome.done r →
        ∃ (s : Frame) (injected : List Bubble) (merges splits : ℕ),
          scan w h (bs.length + 1) { bubbles := bs, newBubbles := [], i := 0, g := g }
            = Outcome.done s
          ∧ r.1 = s.bubbles ++ s.newBubbles ++ injected
          ∧ s.newBubbles.length = merges + 2 * splits
          ∧ s.bubbles.length + 2 * merges + splits = bs.length := by
  refine ⟨fun s s1 hit => iteration_account hit, ?_⟩
  intro r ha
  obtain ⟨s, hs, rfl⟩ := animate_done ha
  obtain ⟨inj, hinj⟩ := refill_append w h (s.bubbles ++ s.newBubbles) s.g
  obtain ⟨⟨merges, splits, h1, h2⟩, -⟩ := scan_invariant w h
    (fun s => ∃ merges splits : ℕ, s.newBubbles.length = merges + 2 * splits
      ∧ s.bubbles.length + 2 * merges + splits = bs.length)
    (fun s s1 hP _ hit => by
      obtain ⟨m, sp, h1, h2⟩ := hP
      rcases iteration_account hit with ⟨e1, e2⟩ | ⟨p, g1, c1, c2, -, e1, e2⟩
        | ⟨bi, bj, g1, e1, e2⟩ | ⟨bi, bj, g1, p, g2, c1, c2, -, e1, e2⟩
      · exact ⟨m, sp, by rw [e1]; exact h1, by rw [e2]; exact h2⟩
      · refine ⟨m, sp + 1, ?_, by omega⟩
        rw [e1, List.length_append]; simp only [List.length_cons, List.length_nil]; omega
      · refine ⟨m + 1, sp, ?_, by omega⟩
        rw [e1, List.length_append]; simp only [List.length_cons, List.length_nil]; omega
      · refine ⟨m + 1, sp + 1, ?_, by omega⟩
        rw [e1, List.length_append, List.length_append]
        simp only [List.length_cons, List.length_nil]; omega) _ _ s
    ⟨0, 0, by simp, by simp⟩ hs
  exact ⟨s, inj, merges, splits, hs, hinj, h1, h2⟩

/-- Witness for C19: a frame on two overlapping particles, which merge. -/
theorem animate_created_appended_witness :
    ∃ r, animate 1000 1000 [⟨Num.fin 100, Num.fin 100, 10, Num.fin 0.6, Num.fin 0.8⟩, ⟨Num.fin 100, Num.fin 100, 10, Num.fin 0.6, Num.fin 0.8⟩] (fun _ => 0.5) = Outcome.done r
      ∧ ∃ (s : Frame) (injected : List Bubble) (merges splits : ℕ),
        scan 1000 1000 3
            { bubbles := [⟨Num.fin 100, Num.fin 100, 10, Num.fin 0.6, Num.fin 0.8⟩, ⟨Num.fin 100, Num.fin 100, 10, Num.fin 0.6, Num.fin 0.8⟩], newBubbles := [], i := 0, g := fun _ => 0.5 }
          = Outcome.done s
        ∧ r.1 = s.bubbles ++ s.newBubbles ++ injected
        ∧ s.newBubbles.length = merges + 2 * splits
        ∧ s.bubbles.length + 2 * merges + splits = 2 := by
  have ha : animate 1000 1000 [⟨Num.fin 100, Num.fin 100, 10, Num.fin 0.6, Num.fin 0.8⟩, ⟨Num.fin 100, Num.fin 100, 10, Num.fin 0.6, Num.fin 0.8⟩] (fun _ => 0.5)
      = Outcome.done (refill 1000 1000
          [(mergeBubbles (Bubble.update 1000 1000 ⟨Num.fin 100, Num.fin 100, 10, Num.fin 0.6, Num.fin 0.8⟩) ⟨Num.fin 100, Num.fin 100, 10, Num.fin 0.6, Num.fin 0.8⟩ (fun _ => 0.5)).1]
          (mergeBubbles (Bubble.update 1000 1000 ⟨Num.fin 100, Num.fin 100, 10, Num.fin 0.6, Num.fin 0.8⟩) ⟨Num.fin 100, Num.fin 100, 10, Num.fin 0.6, Num.fin 0.8⟩ (fun _ => 0.5)).2.tail) := by
    apply animate_pair_merge
    · obtain ⟨ex, ey⟩ := update_pos_free 1000 1000 100 100 0.6 0.8 ⟨Num.fin 100, Num.fin 100, 10, Num.fin 0.6, Num.fin 0.8⟩ rfl rfl rfl rfl
        (by norm_num) (by norm_num) (by norm_num) (by norm_num)
      rw [overlap_fin _ _ _ _ 100 100 ex ey rfl rfl, update_radius]
      have : ((100 : ℝ) + 0.6 - 100) * (100 + 0.6 - 100)
          + (100 + 0.8 - 100) * (100 + 0.8 - 100) = 1 := by norm_num
      rw [this, Real.sqrt_one]
      norm_num
    · rw [mergeBubbles_snd_const]
      norm_num
  exact ⟨_, ha, (animate_created_appended 1000 1000 [⟨Num.fin 100, Num.fin 100, 10, Num.fin 0.6, Num.fin 0.8⟩, ⟨Num.fin 100, Num.fin 100, 10, Num.fin 0.6, Num.fin 0.8⟩] (fun _ => 0.5)).2 _ ha⟩

/-- C20: when the split test of the frame loop does not throw, either it
queues nothing, or it split `bubbles[i]`, whose radius exceeds
`2 * minRadius = 10`; then the floor inside `splitBubble` is inactive: each of
the two queued children has radius exactly `parent / sqrt 2`, greater than
`5 * sqrt 2`, and `2 * child^2 = parent^2`, so the children together have the
parent's area. -/
theorem splitStep_area (s ss : Frame) (hs : splitStep s = some ss) :
    ss.newBubbles = s.newBubbles
    ∨ ∃ b c1 c2 : Bubble, getAt s.bubbles s.i = some b
        ∧ b.radius > b.minRadius * 2 ∧ b.minRadius * 2 = 10
        ∧ (splitBubble b s.g.tail).1 = [c1, c2]
        ∧ ss.newBubbles = s.newBubbles ++ [c1, c2]
        ∧ c1.radius = b.radius / Real.sqrt 2 ∧ c2.radius = b.radius / Real.sqrt 2
        ∧ 5 * Real.sqrt 2 < c1.radius ∧ 5 * Real.sqrt 2 < c2.radius
        ∧ 2 * c1.radius ^ 2 = b.radius ^ 2 ∧ 2 * c2.radius ^ 2 = b.radius ^ 2
        ∧ c1.radius ^ 2 + c2.radius ^ 2 = b.radius ^ 2 := by
  rcases splitStep_some hs with rfl | ⟨b, -, hb, hr, rfl⟩
  · left; rfl
  · right
    obtain ⟨c1, c2, hl, h1, h2⟩ := splitBubble_fst b s.g.tail
    have h2pos : 0 < Real.sqrt 2 := by positivity
    have hss := sqrt_two_mul_self
    have hr10 : 10 < b.radius := by
      have : b.minRadius * 2 = 10 := by norm_num [Bubble.minRadius]
      linarith
    have hbig : 5 * Real.sqrt 2 < b.radius / Real.sqrt 2 := by
      rw [lt_div_iff₀ h2pos]
      nlinarith
    have hle : Real.sqrt 2 ≤ 2 := by
      rw [Real.sqrt_le_left (by norm_num)]; norm_num
    have h1le : (1 : ℝ) ≤ Real.sqrt 2 := by
      rw [Real.one_le_sqrt]; norm_num
    have hmax : max (b.radius / Real.sqrt 2) 5 = b.radius / Real.sqrt 2 :=
      max_eq_left (by nlinarith)
    rw [hmax] at h1 h2
    have harea : 2 * (b.radius / Real.sqrt 2) ^ 2 = b.radius ^ 2 := by
      field_simp
    refine ⟨b, c1, c2, hb, hr, by norm_num [Bubble.minRadius], hl, ?_, h1, h2, ?_, ?_, ?_, ?_, ?_⟩
    · simp only; rw [hl]
    · rw [h1]; exact hbig
    · rw [h2]; exact hbig
    · rw [h1]; exact harea
    · rw [h2]; exact harea
    · rw [h1, h2]; linarith

/-- Witness for C20: the split test on a particle of radius 40 with draw
0.001. -/
theorem splitStep_area_witness :
    ∃ ss, splitStep { bubbles := [⟨Num.fin 100, Num.fin 100, 40, Num.fin 0.6, Num.fin 0.8⟩],
                      newBubbles := [], i := 0, g := fun _ => 0.001 } = some ss
      ∧ ∃ c1 c2 : Bubble, ss.newBubbles = [c1, c2]
        ∧ c1.radius = 40 / Real.sqrt 2 ∧ c2.radius = 40 / Real.sqrt 2
        ∧ 2 * c1.radius ^ 2 = (40 : ℝ) ^ 2 := by
  have hs : splitStep { bubbles := [⟨Num.fin 100, Num.fin 100, 40, Num.fin 0.6, Num.fin 0.8⟩],
                        newBubbles := [], i := 0, g := fun _ => 0.001 }
      = some { bubbles := [],
               newBubbles := (splitBubble ⟨Num.fin 100, Num.fin 100, 40, Num.fin 0.6,
                 Num.fin 0.8⟩ (Draws.tail fun _ => 0.001)).1,
               i := -1,
               g := (splitBubble ⟨Num.fin 100, Num.fin 100, 40, Num.fin 0.6,
                 Num.fin 0.8⟩ (Draws.tail fun _ => 0.001)).2 } := by
    simp [splitStep, getAt, Bubble.minRadius]
    norm_num
  refine ⟨_, hs, ?_⟩
  rcases splitStep_area _ _ hs with hno | ⟨b, c1, c2, hb, -, -, hl, hnb, h1, h2, -, -, h3, -, -⟩
  · exfalso
    obtain ⟨d1, d2, hd, -, -⟩ := splitBubble_fst
      ⟨Num.fin 100, Num.fin 100, 40, Num.fin 0.6, Num.fin 0.8⟩ (Draws.tail fun _ => 0.001)
    simp only at hno
    rw [hd] at hno
    cases hno
  · have hb40 : b = ⟨Num.fin 100, Num.fin 100, 40, Num.fin 0.6, Num.fin 0.8⟩ := by
      simp [getAt] at hb
      exact hb.symm
    subst hb40
    exact ⟨c1, c2, by simpa using hnb, h1, h2, h3⟩

end

end BubbleSim
